import Mathlib

/-!
# dirfixer: permission-normalising walk and executable detection

A shallow embedding of `dirfixer.go`.

* The file system under the fix path is a tree of directories and regular
  files carrying their permission bits (`Node`); there are no symbolic links
  or special files, so `os.Stat` and `os.Lstat` describe the same object, and
  nothing else modifies the tree during a run.
* Every system call the program makes may fail, as decided by an environment
  `Env` whose answers may depend on the path and on the permission bits that
  are current when the call is made.  `Env.posixOwner` and `Env.posixOther`
  are the permission checks of a POSIX system for an unprivileged caller.
* Go's `error` results are `Option String` (the text of the error), with
  separate types where the program tests the identity of an error
  (`io.EOF`, `os.IsNotExist`).
* Each function returns, besides its Go result, the ordered list of
  observable events: system calls attempted, lines written to the standard
  streams, and invocations of the walk callback.
* `filepath.Walk` is Go's standard library: it reads the names of a
  directory before it calls the callback on that directory, and calls the
  callback once per entry.  The callback of `main` never returns
  `filepath.SkipDir` or `filepath.SkipAll`.
* A nil dereference is the result `Ret.fault`, which ends the run with
  `Exit.fault`.
-/

namespace Dirfixer

/-! ## Data model -/

/-- Permission bits of `os.FileMode` (the twelve bits `chmod` sets). -/
abbrev FileMode := Nat

/-- A Go `byte`. -/
abbrev Byte := Fin 256

/-- The constant `dirMode` (`dirfixer.go` line 12). -/
def dirMode : FileMode := 0o750

/-- The constant `fileMode` (`dirfixer.go` line 13). -/
def fileMode : FileMode := 0o640

/-- The constant `execFileMode` (`dirfixer.go` line 14). -/
def execFileMode : FileMode := 0o750

/-- The variable `dirfixerVersion` (`dirfixer.go` line 18). -/
def dirfixerVersion : String := "0.0.1"

mutual
/-- A file-system object: a regular file with its permission bits and
content, or a directory with its permission bits and its entries. -/
inductive Node where
  | file (mode : FileMode) (content : List Byte) : Node
  | dir (mode : FileMode) (entries : Entries) : Node
/-- The entries of a directory, in the order `readDirNames` returns their
names (sorted). -/
inductive Entries where
  | nil : Entries
  | cons (name : String) (node : Node) (rest : Entries) : Entries
end

/-- Result of `info.IsDir()` for the `os.FileInfo` describing a node. -/
def Node.isDir : Node → Bool
  | .file _ _ => false
  | .dir _ _ => true

/-- Current permission bits of a node. -/
def Node.mode : Node → FileMode
  | .file m _ => m
  | .dir m _ => m

/-- Content of a regular file (a directory has none). -/
def Node.content : Node → List Byte
  | .file _ c => c
  | .dir _ _ => []

/-- Observable events, in program order. -/
inductive Event where
  | osStat (path : String)
  | osLstat (path : String)
  | readDirNames (path : String)
  | osOpen (path : String)
  | fileRead (path : String)
  | fileClose (path : String)
  | osChmod (path : String) (mode : FileMode)
  | walkFnCall (path : String)
  | stdout (line : String)
  | stderr (line : String)
deriving DecidableEq, Repr

/-- The environment: for each system call, the error it fails with (if
any).  `none` means the call succeeds.  The answers may depend on the path
and on the permission bits that are current when the call is made: for
`lstatErr` the bits of the containing directory (`none` for the walk root,
whose parent lies outside the tree), for the others the bits of the object
itself. -/
structure Env where
  /-- Failure of `os.Stat` other than "not found". -/
  statErr : String → Option String
  lstatErr : String → Option FileMode → Option String
  readdirErr : String → FileMode → Option String
  openErr : String → FileMode → Option String
  /-- Failure of `file.Read` other than `io.EOF`. -/
  readErr : String → Option String
  closeErr : String → Option String
  chmodErr : String → FileMode → Option String
  /-- Failure of `fmt.Println` on standard output. -/
  printlnErr : Option String

/-! ## Executable detection (`isExecutable`, lines 136-164) -/

/-- The error value of `file.Read`: `io.EOF` or any other error. -/
inductive ReadError where
  | EOF
  | other (msg : String)
deriving DecidableEq, Repr

/-- Outcome of `file.Read(magicBytes)` on a freshly opened regular file
with a zeroed buffer of `bufLen` bytes: the count `n`, the buffer after the
call, and the error.  At end of file (nothing to read) the call returns
`0, io.EOF`. -/
def fileRead (env : Env) (path : String) (content : List Byte) (bufLen : Nat) :
    Nat × List Byte × Option ReadError :=
  match env.readErr path with
  | some e => (0, List.replicate bufLen 0, some (.other e))
  | none =>
    if content.length = 0 then (0, List.replicate bufLen 0, some .EOF)
    else
      let n := min bufLen content.length
      (n, content.take n ++ List.replicate (bufLen - n) 0, none)

/-- The two magic-byte checks of `isExecutable` (lines 153-163) on the byte
count `n` and the four-byte buffer. -/
def magicCheck (n : Nat) (magicBytes : List Byte) : Bool :=
  -- Check for shebang: '#' is 35, '!' is 33
  if n ≥ 2 ∧ magicBytes.getD 0 0 = 35 ∧ magicBytes.getD 1 0 = 33 then true
  -- Check for ELF: 'E' is 69, 'L' is 76, 'F' is 70
  else if n = 4 ∧ magicBytes.getD 0 0 = 0x7F ∧ magicBytes.getD 1 0 = 69
      ∧ magicBytes.getD 2 0 = 76 ∧ magicBytes.getD 3 0 = 70 then true
  else false

/-- Result of `isExecutable`: the boolean, the error, and the events. -/
structure ExeResult where
  isExe : Bool
  err : Option String
  events : List Event
deriving DecidableEq, Repr

/-- The function `isExecutable(path)` applied to the regular file at `path` with
current permission bits `mode` and content `content`. -/
def isExecutable (env : Env) (path : String) (mode : FileMode) (content : List Byte) :
    ExeResult :=
  match env.openErr path mode with
  | some e => ⟨false, some ("opening file: " ++ e), [.osOpen path]⟩
  | none =>
    match fileRead env path content 4 with
    | (_, _, some (.other e)) =>
      ⟨false, some ("reading file: " ++ e), [.osOpen path, .fileRead path]⟩
    | (n, magicBytes, _) =>
      match env.closeErr path with
      | some e =>
        ⟨false, some ("closing file: " ++ e), [.osOpen path, .fileRead path, .fileClose path]⟩
      | none =>
        ⟨magicCheck n magicBytes, none, [.osOpen path, .fileRead path, .fileClose path]⟩

/-! ## Mode setter (`handleFile`, `handleDir`, lines 110-134) -/

/-- Result of a handler: the permission bits the object has afterwards, the
returned error, and the events. -/
structure HandleResult where
  mode : FileMode
  err : Option String
  events : List Event
deriving DecidableEq, Repr

/-- The function `handleFile(path)` applied to the regular file at `path`. -/
def handleFile (env : Env) (path : String) (mode : FileMode) (content : List Byte) :
    HandleResult :=
  let x := isExecutable env path mode content
  match x.err with
  | some e => ⟨mode, some ("checking if executable: " ++ e), x.events⟩
  | none =>
    let newMode := if x.isExe then execFileMode else fileMode
    match env.chmodErr path mode with
    | some e => ⟨mode, some ("setting file mode: " ++ e), x.events ++ [.osChmod path newMode]⟩
    | none => ⟨newMode, none, x.events ++ [.osChmod path newMode]⟩

/-- The function `handleDir(path)` applied to the directory at `path`. -/
def handleDir (env : Env) (path : String) (mode : FileMode) : HandleResult :=
  match env.chmodErr path mode with
  | some e => ⟨mode, some ("changing directory permissions: " ++ e), [.osChmod path dirMode]⟩
  | none => ⟨dirMode, none, [.osChmod path dirMode]⟩

/-- The handler the walk callback selects with `info.IsDir()`, applied to
the node the `info` describes; only the node's own permission bits change. -/
def handleNode (env : Env) (path : String) : Node → Node × HandleResult
  | .dir m es => let h := handleDir env path m; (.dir h.mode es, h)
  | .file m c => let h := handleFile env path m c; (.file h.mode c, h)

/-! ## Tree walker (the callback of lines 69-90 and `filepath.Walk`) -/

/-- What a Go function of result type `error` does: return `nil`, return a
non-nil error, or fault at run time (nil dereference). -/
inductive Ret where
  | nil
  | err (msg : String)
  | fault
deriving DecidableEq, Repr

/-- Result of one invocation of the walk callback: what it returns, the
object at `path` afterwards (`none` when the callback was given a nil
`info`, in which case no object is touched), and the events. -/
structure CallbackResult where
  ret : Ret
  node : Option Node
  events : List Event

/-- Result of the walk on a node. -/
structure WalkResult where
  node : Node
  ret : Ret
  events : List Event

/-- Result of the walk over the entries of a directory. -/
structure EntriesResult where
  entries : Entries
  ret : Ret
  events : List Event

/-- The callback passed to `filepath.Walk` (lines 69-90).  `info` is `none`
for a nil `os.FileInfo`; otherwise it is the node the info describes, which
is the object at `path` the handlers act on.  The event `walkFnCall` marks
the invocation. -/
def walkFn (env : Env) (progSignature : String) (failEarly : Bool) (path : String)
    (info : Option Node) (err : Option String) : CallbackResult :=
  let call := [Event.walkFnCall path]
  match err, failEarly with
  | some e, true => ⟨.err ("iterate over path " ++ path ++ ": " ++ e), info, call⟩
  | _, _ =>
    let log := match err with
      | some e => call ++ [.stderr (progSignature ++ ": failed to iterate over path "
          ++ path ++ ": " ++ e ++ "\n")]
      | none => call
    match info with
    | none => ⟨.fault, none, log⟩
    | some node =>
      let (node1, h) := handleNode env path node
      match h.err with
      | some e =>
        if failEarly then
          ⟨.err ("handle path " ++ path ++ ": " ++ e), some node1, log ++ h.events⟩
        else
          ⟨.nil, some node1, log ++ h.events ++ [.stderr (progSignature
            ++ ": failed to handle path " ++ path ++ ": " ++ e ++ "\n")]⟩
      | none => ⟨.nil, some node1, log ++ h.events⟩

/-- The elements of a path between its separators `/` (empty ones included). -/
def splitSlash : List Char → List (List Char)
  | [] => [[]]
  | c :: cs =>
    if c = '/' then [] :: splitSlash cs
    else match splitSlash cs with
      | [] => [[c]]
      | x :: xs => (c :: x) :: xs

/-- The elements of a cleaned path: empty elements and `.` are dropped, and
`..` removes the element before it, is dropped at the start of a rooted
path, and is kept otherwise.  `acc` holds the elements kept so far, the
last one first. -/
def cleanElems (rooted : Bool) : List (List Char) → List (List Char) → List (List Char)
  | [], acc => acc.reverse
  | c :: cs, acc =>
    if c = [] ∨ c = ['.'] then cleanElems rooted cs acc
    else if c = ['.', '.'] then
      match acc with
      | top :: rest =>
        if top = ['.', '.'] then cleanElems rooted cs (c :: acc)
        else cleanElems rooted cs rest
      | [] => if rooted then cleanElems rooted cs [] else cleanElems rooted cs [c]
    else cleanElems rooted cs (c :: acc)

/-- The function `filepath.Clean(path)` of Go's `path/filepath` for the separator `/`:
the shortest equivalent path, `.` for an empty result, a trailing slash
only for the root. -/
def Clean (path : String) : String :=
  let rooted := path.data.head? = some '/'
  let body := String.intercalate "/"
    ((cleanElems rooted (splitSlash path.data) []).map String.mk)
  if rooted then "/" ++ body else if body = "" then "." else body

/-- The function `filepath.Join(path, name)` of Go's `path/filepath`: empty elements are
ignored, the others are joined with `/`, and the result is cleaned. -/
def Join (path name : String) : String :=
  if path = "" then (if name = "" then "" else Clean name)
  else Clean (path ++ "/" ++ name)

mutual
/-- The unexported `walk(path, info, walkFn)` of Go's `path/filepath`:
a non-directory is passed to the callback; for a directory the names are
read first, then the callback is called with the read error, and the
entries are walked only when neither failed. -/
def walk (env : Env) (progSignature : String) (failEarly : Bool) (path : String) :
    Node → WalkResult
  | .file m c =>
    let r := walkFn env progSignature failEarly path (some (.file m c)) none
    ⟨.file ((r.node.getD (.file m c)).mode) c, r.ret, r.events⟩
  | .dir m es =>
    -- names, err := readDirNames(path); err1 := walkFn(path, info, err)
    let rdErr := env.readdirErr path m
    let r := walkFn env progSignature failEarly path (some (.dir m es)) rdErr
    let m1 := (r.node.getD (.dir m es)).mode
    -- if err != nil || err1 != nil { return err1 }
    if rdErr ≠ none ∨ r.ret ≠ .nil then
      ⟨.dir m1 es, r.ret, Event.readDirNames path :: r.events⟩
    else
      let rs := walkEntries env progSignature failEarly path m1 es
      ⟨.dir m1 rs.entries, rs.ret, Event.readDirNames path :: r.events ++ rs.events⟩
/-- The loop of `walk` over the names of the directory `path`, whose
current permission bits are `dmode`: each entry is `lstat`ed; on failure
the callback gets a nil `info` and the error, otherwise the entry is
walked; a non-nil result stops the loop. -/
def walkEntries (env : Env) (progSignature : String) (failEarly : Bool) (path : String)
    (dmode : FileMode) : Entries → EntriesResult
  | .nil => ⟨.nil, .nil, []⟩
  | .cons name node rest =>
    let filename := Join path name
    -- fileInfo, err := lstat(filename)
    match env.lstatErr filename (some dmode) with
    | some e =>
      -- if err := walkFn(filename, fileInfo, err); err != nil { return err }
      let r := walkFn env progSignature failEarly filename none (some e)
      if r.ret ≠ .nil then
        ⟨.cons name node rest, r.ret, Event.osLstat filename :: r.events⟩
      else
        let rs := walkEntries env progSignature failEarly path dmode rest
        ⟨.cons name node rs.entries, rs.ret, Event.osLstat filename :: r.events ++ rs.events⟩
    | none =>
      -- err = walk(filename, fileInfo, walkFn); if err != nil { return err }
      let r := walk env progSignature failEarly filename node
      if r.ret ≠ .nil then
        ⟨.cons name r.node rest, r.ret, Event.osLstat filename :: r.events⟩
      else
        let rs := walkEntries env progSignature failEarly path dmode rest
        ⟨.cons name r.node rs.entries, rs.ret, Event.osLstat filename :: r.events ++ rs.events⟩
end

/-- The function `filepath.Walk(root, fn)` with the callback `walkFn`: `os.Lstat` on the
root, then the callback with a nil `info` on failure, else `walk`. -/
def Walk (env : Env) (progSignature : String) (failEarly : Bool) (root : String)
    (node : Node) : WalkResult :=
  match env.lstatErr root none with
  | some e =>
    let r := walkFn env progSignature failEarly root none (some e)
    ⟨node, r.ret, Event.osLstat root :: r.events⟩
  | none =>
    let r := walk env progSignature failEarly root node
    ⟨r.node, r.ret, Event.osLstat root :: r.events⟩

/-! ## Path validator and `main` (lines 21-108) -/

/-- The error of `os.Stat`: one for which `os.IsNotExist` holds, or another. -/
inductive StatError where
  | notExist
  | other (msg : String)
deriving DecidableEq, Repr

/-- The call `os.Stat(path)` where `fs` is the object at `path` (`none`: there is
none). -/
def osStat (env : Env) (path : String) (fs : Option Node) : Except StatError Node :=
  match env.statErr path with
  | some e => .error (.other e)
  | none =>
    match fs with
    | none => .error .notExist
    | some node => .ok node

/-- Result of `isValidPath`: the two booleans and the error. -/
structure ValidPath where
  exists_ : Bool
  isDir : Bool
  err : Option String
deriving DecidableEq, Repr

/-- The function `isValidPath(path)` (lines 99-108). -/
def isValidPath (env : Env) (path : String) (fs : Option Node) : ValidPath :=
  match osStat env path fs with
  | .error .notExist => ⟨false, false, none⟩
  | .error (.other e) => ⟨false, false, some e⟩
  | .ok info => ⟨true, info.isDir, none⟩

/-- The parsed command line (the struct `args` of lines 29-33). -/
structure Args where
  FixPath : Option String
  FailEarly : Bool
  PrintVersion : Bool
deriving DecidableEq, Repr

/-- How the process ends: `os.Exit(n)`, the usage failure of the argument
parser (`parser.Fail`), or a run-time fault of the Go runtime. -/
inductive Exit where
  | code (n : Nat)
  | usage (msg : String)
  | fault
deriving DecidableEq, Repr

/-- Result of a run: the object at the target path afterwards, how the
process ended, and the events. -/
structure RunResult where
  fs : Option Node
  exit : Exit
  events : List Event

/-- The variable `progSignature` of `main` (lines 22-27): `os.Args[0]` when there is
one, else `"dirfixer"`. -/
def progSignature (osArgs : List String) : String :=
  match osArgs with
  | a :: _ => a
  | [] => "dirfixer"

/-- The function `main` (lines 21-97), after `arg.MustParse` produced `args`; `osArgs` is
`os.Args` and `fs` the object at the fix path. -/
def main (env : Env) (osArgs : List String) (args : Args) (fs : Option Node) : RunResult :=
  let progSignature := progSignature osArgs
  if args.PrintVersion then
    match env.printlnErr with
    | some e =>
      ⟨fs, .code 2, [.stderr (progSignature ++ ": failed to print version:: " ++ e ++ "\n")]⟩
    | none => ⟨fs, .code 0, [.stdout ("dirfixer version " ++ dirfixerVersion ++ "\n")]⟩
  else
    match args.FixPath with
    | none => ⟨fs, .usage "no fix path specified", []⟩
    | some fixPath =>
      if fixPath = "" then ⟨fs, .usage "no fix path specified", []⟩
      else
        let v := isValidPath env fixPath fs
        match v.err with
        | some e =>
          ⟨fs, .code 2, [.osStat fixPath,
            .stderr (progSignature ++ ": failed to validate path: " ++ e ++ "\n")]⟩
        | none =>
          if !v.exists_ then
            ⟨fs, .code 1, [.osStat fixPath,
              .stderr (progSignature ++ ": path does not exist\n")]⟩
          else
            match v.isDir, fs with
            | false, some (.file m c) =>
              let h := handleFile env fixPath m c
              match h.err with
              | some e =>
                ⟨some (.file h.mode c), .code 2, Event.osStat fixPath :: h.events ++
                  [.stderr (progSignature ++ ": failed to handle provided file: " ++ e ++ "\n")]⟩
              | none => ⟨some (.file h.mode c), .code 0, Event.osStat fixPath :: h.events⟩
            | true, some node =>
              let w := Walk env progSignature args.FailEarly fixPath node
              match w.ret with
              | .nil => ⟨some w.node, .code 0, Event.osStat fixPath :: w.events⟩
              | .err e =>
                ⟨some w.node, .code 2, Event.osStat fixPath :: w.events ++
                  [.stderr (progSignature ++ ": failed to fix path " ++ fixPath ++ ": "
                    ++ e ++ "\n")]⟩
              | .fault => ⟨some w.node, .fault, Event.osStat fixPath :: w.events⟩
            -- not reachable: `isValidPath` reports what `fs` holds
            | _, _ => ⟨fs, .fault, [.osStat fixPath]⟩

/-! ## Observations on trees and event lists -/

/-- One line of the pre-order listing of a tree: path, kind, permission
bits and (for a file) content. -/
structure Entry where
  path : String
  isDir : Bool
  mode : FileMode
  content : List Byte
deriving DecidableEq, Repr

mutual
/-- Pre-order listing of the tree at `path`: the order in which `filepath.Walk`
reaches the entries. -/
def flat (path : String) : Node → List Entry
  | .file m c => [⟨path, false, m, c⟩]
  | .dir m es => ⟨path, true, m, []⟩ :: flatEntries path es
/-- Pre-order listing of the entries of the directory `path`. -/
def flatEntries (path : String) : Entries → List Entry
  | .nil => []
  | .cons name node rest => flat (Join path name) node ++ flatEntries path rest
end

/-- The lines written to the error stream. -/
def stderrLines : List Event → List String
  | [] => []
  | .stderr l :: es => l :: stderrLines es
  | _ :: es => stderrLines es

/-- The paths the walk callback was invoked on, in order. -/
def delivered : List Event → List String
  | [] => []
  | .walkFnCall p :: es => p :: delivered es
  | _ :: es => delivered es

/-- An environment in which no system call fails. -/
def Env.ok : Env :=
  ⟨fun _ => none, fun _ _ => none, fun _ _ => none, fun _ _ => none, fun _ => none,
   fun _ => none, fun _ _ => none, none⟩

/-- Permission checks of a POSIX system for an unprivileged caller who owns
every object: listing a directory and opening a file need the owner-read
bit `0400` of the object, reaching an entry needs the owner-search bit
`0100` of its directory, and `chmod` is allowed to the owner. -/
def Env.posixOwner : Env :=
  { statErr := fun _ => none
    lstatErr := fun _ dm => match dm with
      | some m => if m / 0o100 % 2 = 1 then none else some "permission denied"
      | none => none
    readdirErr := fun _ m => if m / 0o400 % 2 = 1 then none else some "permission denied"
    openErr := fun _ m => if m / 0o400 % 2 = 1 then none else some "permission denied"
    readErr := fun _ => none
    closeErr := fun _ => none
    chmodErr := fun _ _ => none
    printlnErr := none }

/-- The classification of a file by its content: the magic-byte checks on
what a successful read of up to four bytes returns. -/
def classify (content : List Byte) : Bool :=
  let n := min 4 content.length
  magicCheck n (content.take n ++ List.replicate (4 - n) 0)

/-- The fixed mode for an entry: `dirMode` for a directory, `execFileMode`
for a file classified executable, `fileMode` for any other file. -/
def targetMode (isDir : Bool) (content : List Byte) : FileMode :=
  if isDir then dirMode else if classify content then execFileMode else fileMode

mutual
/-- The tree with every entry at its fixed mode. -/
def normalize : Node → Node
  | .file _ c => .file (targetMode false c) c
  | .dir _ es => .dir dirMode (normalizeEntries es)
/-- The entries with every entry at its fixed mode. -/
def normalizeEntries : Entries → Entries
  | .nil => .nil
  | .cons name node rest => .cons name (normalize node) (normalizeEntries rest)
end

mutual
/-- The tree with the permission bits of every entry replaced by `k`. -/
def withMode (k : FileMode) : Node → Node
  | .file _ c => .file k c
  | .dir _ es => .dir k (withModeEntries k es)
/-- The entries with the permission bits of every entry replaced by `k`. -/
def withModeEntries (k : FileMode) : Entries → Entries
  | .nil => .nil
  | .cons name node rest => .cons name (withMode k node) (withModeEntries k rest)
end

/-- A listed entry at its fixed mode. -/
def Entry.fixed (e : Entry) : Entry := { e with mode := targetMode e.isDir e.content }

/-- The handler matching the type of a listed entry, applied to it. -/
def handleEntry (env : Env) (e : Entry) : HandleResult :=
  if e.isDir then handleDir env e.path e.mode else handleFile env e.path e.mode e.content

/-- The line the callback writes for a listed entry whose handler failed. -/
def handleLine (env : Env) (progSignature : String) (e : Entry) : Option String :=
  (handleEntry env e).err.map fun msg =>
    progSignature ++ ": failed to handle path " ++ e.path ++ ": " ++ msg ++ "\n"

mutual
/-- The tree with every entry that is not inside a directory whose listing
fails left as the handler matching its type leaves it on its own. -/
def settle (env : Env) (path : String) : Node → Node
  | .file m c => .file (handleFile env path m c).mode c
  | .dir m es => .dir (handleDir env path m).mode
      (if env.readdirErr path m ≠ none then es else settleEntries env path es)
/-- The entries of the directory `path`, each settled. -/
def settleEntries (env : Env) (path : String) : Entries → Entries
  | .nil => .nil
  | .cons name node rest =>
    .cons name (settle env (Join path name) node) (settleEntries env path rest)
end

mutual
/-- Pre-order listing of the entries of the tree at `path` that are not
inside a directory whose listing fails. -/
def visited (env : Env) (path : String) : Node → List Entry
  | .file m c => [⟨path, false, m, c⟩]
  | .dir m es => ⟨path, true, m, []⟩ ::
      (if env.readdirErr path m ≠ none then [] else visitedEntries env path es)
/-- The entries of the directory `path` with their visited descendants. -/
def visitedEntries (env : Env) (path : String) : Entries → List Entry
  | .nil => []
  | .cons name node rest => visited env (Join path name) node ++ visitedEntries env path rest
end

/-- The line the callback writes without fail-early for a listed directory
whose listing failed. -/
def iterateLine (env : Env) (progSignature : String) (e : Entry) : Option String :=
  (if e.isDir then env.readdirErr e.path e.mode else none).map fun msg =>
    progSignature ++ ": failed to iterate over path " ++ e.path ++ ": " ++ msg ++ "\n"

/-- The lines the callback writes without fail-early for a listed entry. -/
def entryLines (env : Env) (progSignature : String) (e : Entry) : List String :=
  (iterateLine env progSignature e).toList ++ (handleLine env progSignature e).toList

/-- The error the fail-early callback returns on a listed entry, if any,
given the outcome `lst` of the `lstat` on it: the traversal error of a
failed `lstat`, else the traversal error of a failed directory read, else
the error of the handler matching the type of the entry. -/
def entryErr (env : Env) (lst : Option String) (e : Entry) : Option String :=
  match lst with
  | some x => some ("iterate over path " ++ e.path ++ ": " ++ x)
  | none =>
    match (if e.isDir then env.readdirErr e.path e.mode else none) with
    | some x => some ("iterate over path " ++ e.path ++ ": " ++ x)
    | none => (handleEntry env e).err.map fun x => "handle path " ++ e.path ++ ": " ++ x

/-- The error the fail-early callback returns on a listed entry below the
root, if any: its `lstat` is made when its directory has got `dirMode`. -/
def childErr (env : Env) (e : Entry) : Option String :=
  entryErr env (env.lstatErr e.path (some dirMode)) e

/-- For each listed entry of a tree, the error the fail-early callback
returns on it (if any), where `lst` is the outcome of the `lstat` on the
first entry, the root. -/
def walkErrs (env : Env) (lst : Option String) : List Entry → List (Option String)
  | [] => []
  | e :: tl => entryErr env lst e :: tl.map (childErr env)

/-- The outcome of a fail-early walk over the listed entries `es` with the
errors `fs`: the first `k` entries have no error and are at their fixed
modes, the others are as they were (`out`); either all entries were
handled, the result is `nil` and the callback was invoked on every entry,
or entry `k` has an error, the walk returns it, and the callback was invoked
on the entries up to entry `k` and on no later one. -/
def StoppedAt (es : List Entry) (fs : List (Option String)) (k : Nat) (out : List Entry)
    (ret : Ret) (calls : List String) : Prop :=
  out = (es.take k).map Entry.fixed ++ es.drop k ∧
  (∀ f ∈ fs.take k, f = none) ∧
  ((k = es.length ∧ ret = .nil ∧ calls = es.map Entry.path) ∨
   (k < es.length ∧ ∃ msg, fs[k]? = some (some msg) ∧ ret = .err msg ∧
      calls = (es.take (k + 1)).map Entry.path))

/-- A directory entry that cannot be listed with its original bits cannot be
listed either with the bits `handleDir` leaves on it. -/
abbrev KeepsUnlisted (env : Env) (e : Entry) : Prop :=
  env.readdirErr e.path e.mode ≠ none →
    env.readdirErr e.path (handleDir env e.path e.mode).mode ≠ none

/-- A directory entry that can be listed with its original bits can also
be listed with the bits `handleDir` leaves on it. -/
abbrev KeepsListed (env : Env) (e : Entry) : Prop :=
  env.readdirErr e.path e.mode = none →
    env.readdirErr e.path (handleDir env e.path e.mode).mode = none

/-! ## Concrete inputs -/

/-- Permission checks of a POSIX system for an unprivileged caller who owns
none of the objects and is not in their group: listing and opening need the
read bit `0004`, reaching an entry needs the search bit `0001` of its
directory, and `chmod` is refused. -/
def Env.posixOther : Env :=
  { statErr := fun _ => none
    lstatErr := fun _ dm => match dm with
      | some m => if m % 2 = 1 then none else some "permission denied"
      | none => none
    readdirErr := fun _ m => if m / 0o004 % 2 = 1 then none else some "permission denied"
    openErr := fun _ m => if m / 0o004 % 2 = 1 then none else some "permission denied"
    readErr := fun _ => none
    closeErr := fun _ => none
    chmodErr := fun _ _ => some "operation not permitted"
    printlnErr := none }

/-- An environment in which only `chmod` on the path `p` fails. -/
def Env.chmodFailsOn (p : String) : Env :=
  { Env.ok with chmodErr := fun q _ => if q = p then some "operation not permitted" else none }

/-- Command line `dirfixer r`. -/
def argsPlain : Args := ⟨some "r", false, false⟩

/-- Command line `dirfixer --fail-early r`. -/
def argsFailEarly : Args := ⟨some "r", true, false⟩

/-- A directory (0755) holding a directory without any permission (0000)
that holds an empty file (0644), and a script without any permission (0000). -/
def lockedTree : Node :=
  .dir 0o755 (.cons "d" (.dir 0 (.cons "f" (.file 0o644 []) .nil))
    (.cons "x" (.file 0 [35, 33, 47]) .nil))

/-- A directory (0700) holding a script (0600), and a directory (0777)
holding an empty file (0444) and an ELF binary (0604). -/
def readableTree : Node :=
  .dir 0o700 (.cons "a.sh" (.file 0o600 [35, 33, 47, 98, 105, 110, 47, 115, 104, 10])
    (.cons "d" (.dir 0o777 (.cons "e" (.file 0o444 [])
      (.cons "elf" (.file 0o604 [0x7F, 69, 76, 70, 2, 1]) .nil))) .nil))

/-- A directory (0755) holding three empty files (0600). -/
def threeFiles : Node :=
  .dir 0o755 (.cons "a" (.file 0o600 []) (.cons "b" (.file 0o600 [])
    (.cons "c" (.file 0o600 []) .nil)))

/-- A directory (0754) holding a file (0644), all owned by someone else. -/
def foreignTree : Node :=
  .dir 0o754 (.cons "f" (.file 0o644 []) .nil)

/-- A directory (0755) holding a directory (0700) that holds a file (0644),
and a script without any permission (0000). -/
def unreadableFileTree : Node :=
  .dir 0o755 (.cons "d" (.dir 0o700 (.cons "f" (.file 0o644 []) .nil))
    (.cons "x" (.file 0 [35, 33, 47]) .nil))

/-- The permission checks of `Env.posixOwner`, except that `chmod` on the path
`p` fails. -/
def Env.posixOwnerChmodFailsOn (p : String) : Env :=
  { Env.posixOwner with
    chmodErr := fun q _ => if q = p then some "operation not permitted" else none }

/-- A directory (0755) holding a directory that can be listed but not
searched (0600) with a file (0644) in it, and a file (0644). -/
def unsearchableTree : Node :=
  .dir 0o755 (.cons "d" (.dir 0o600 (.cons "f" (.file 0o644 []) .nil))
    (.cons "g" (.file 0o644 []) .nil))

/-! # Theorems -/

/-! ### Executable detection -/

/-- When open, read and close succeed, `isExecutable` returns no error and
the magic-byte check of what was read. -/
theorem isExecutable_ok (env : Env) (path : String) (mode : FileMode) (content : List Byte)
    (hopen : env.openErr path mode = none) (hread : env.readErr path = none)
    (hclose : env.closeErr path = none) :
    isExecutable env path mode content =
      ⟨magicCheck (fileRead env path content 4).1 (fileRead env path content 4).2.1, none,
        [.osOpen path, .fileRead path, .fileClose path]⟩ := by
  unfold isExecutable
  rw [hopen]
  simp only []
  have h : fileRead env path content 4 =
      (if content.length = 0 then (0, List.replicate 4 0, some ReadError.EOF)
       else (min 4 content.length,
         content.take (min 4 content.length) ++ List.replicate (4 - min 4 content.length) 0,
         none)) := by
    unfold fileRead; rw [hread]
  rw [h]
  split_ifs <;> simp [hclose]

/-- The byte checks in terms of the file content. -/
theorem magicCheck_fileRead (env : Env) (path : String) (content : List Byte)
    (hread : env.readErr path = none) :
    magicCheck (fileRead env path content 4).1 (fileRead env path content 4).2.1 = true ↔
      ((∃ rest, content = 35 :: 33 :: rest) ∨ (∃ rest, content = 0x7F :: 69 :: 76 :: 70 :: rest)) := by
  unfold fileRead
  rw [hread]
  match content with
  | [] => simp [magicCheck]
  | [a] => simp [magicCheck]
  | [a, b] => simp [magicCheck]
  | [a, b, c] => simp [magicCheck]
  | a :: b :: c :: d :: rest =>
    simp [magicCheck]

/-- The function `isExecutable` returns no error exactly when open, read and close succeed. -/
theorem isExecutable_err_none_iff (env : Env) (path : String) (mode : FileMode)
    (content : List Byte) :
    (isExecutable env path mode content).err = none ↔
      (env.openErr path mode = none ∧ env.readErr path = none ∧ env.closeErr path = none) := by
  unfold isExecutable fileRead
  cases ho : env.openErr path mode <;> cases hr : env.readErr path <;>
    cases hc : env.closeErr path <;> simp <;> split_ifs <;> simp [hc]

/-- A successful `isExecutable` returns the classification of the content. -/
theorem isExecutable_classify (env : Env) (path : String) (mode : FileMode)
    (content : List Byte) (h : (isExecutable env path mode content).err = none) :
    (isExecutable env path mode content).isExe = classify content := by
  obtain ⟨ho, hr, hc⟩ := (isExecutable_err_none_iff env path mode content).mp h
  rw [isExecutable_ok env path mode content ho hr hc]
  simp only [fileRead, hr, classify]
  split_ifs with h0
  · have : content = [] := List.eq_nil_of_length_eq_zero h0
    subst this
    rfl
  · rfl

/-! ### The callback -/

/-- Without fail-early and with a non-nil `info`, the callback runs the
handler matching the node, reports a failure on the error stream and
returns `nil`. -/
theorem walkFn_continue (env : Env) (prog path : String) (node : Node) (err : Option String) :
    (walkFn env prog false path (some node) err).ret = .nil ∧
    (walkFn env prog false path (some node) err).node = some (handleNode env path node).1 := by
  unfold walkFn
  cases err <;> simp <;> cases h : (handleNode env path node).2.err <;> simp [h]

/-- Without fail-early the callback never returns a non-nil error. -/
theorem walkFn_continue_ne_err (env : Env) (prog path : String) (info : Option Node)
    (err : Option String) (msg : String) :
    (walkFn env prog false path info err).ret ≠ .err msg := by
  cases info with
  | none => unfold walkFn; cases err <;> simp
  | some node => rw [(walkFn_continue env prog path node err).1]; simp

mutual
/-- Without fail-early `walk` never returns a non-nil error. -/
theorem walk_continue_ne_err (env : Env) (prog : String) :
    ∀ (node : Node) (path : String) (msg : String),
      (walk env prog false path node).ret ≠ .err msg
  | .file m c, path, msg => by
    rw [walk]
    exact walkFn_continue_ne_err env prog path _ _ msg
  | .dir m es, path, msg => by
    rw [walk]
    simp only []
    split_ifs
    · exact walkFn_continue_ne_err env prog path _ _ msg
    · exact walkEntries_continue_ne_err env prog es path _ msg
/-- Without fail-early the loop over the entries never returns a non-nil error. -/
theorem walkEntries_continue_ne_err (env : Env) (prog : String) :
    ∀ (es : Entries) (path : String) (dmode : FileMode) (msg : String),
      (walkEntries env prog false path dmode es).ret ≠ .err msg
  | .nil, path, dmode, msg => by
    rw [walkEntries]; simp
  | .cons name node rest, path, dmode, msg => by
    rw [walkEntries]
    simp only []
    have h1 := walkFn_continue_ne_err env prog (Join path name) none
    have h2 := walk_continue_ne_err env prog node (Join path name)
    have h3 := walkEntries_continue_ne_err env prog rest path dmode msg
    split
    · split_ifs
      · exact h1 _ msg
      · exact h3
    · split_ifs
      · exact h2 msg
      · exact h3
end

/-! ### Event lists -/

mutual
/-- Without fail-early, when `lstat` never fails, `walk` returns `nil`. -/
theorem walk_continue_nil (env : Env) (prog : String)
    (hl : ∀ p d, env.lstatErr p d = none) :
    ∀ (node : Node) (path : String), (walk env prog false path node).ret = .nil
  | .file m c, path => by
    rw [walk]
    exact (walkFn_continue env prog path _ _).1
  | .dir m es, path => by
    rw [walk]
    simp only []
    split_ifs
    · exact (walkFn_continue env prog path _ _).1
    · exact walkEntries_continue_nil env prog hl es path _
/-- Without fail-early, when `lstat` never fails, the loop over the entries
returns `nil`. -/
theorem walkEntries_continue_nil (env : Env) (prog : String)
    (hl : ∀ p d, env.lstatErr p d = none) :
    ∀ (es : Entries) (path : String) (dmode : FileMode),
      (walkEntries env prog false path dmode es).ret = .nil
  | .nil, path, dmode => by
    rw [walkEntries]
  | .cons name node rest, path, dmode => by
    rw [walkEntries]
    simp only [hl]
    split_ifs with hc
    · exact absurd (walk_continue_nil env prog hl node (Join path name)) hc
    · exact walkEntries_continue_nil env prog hl rest path dmode
end

@[simp] theorem stderrLines_nil : stderrLines [] = [] := rfl
@[simp] theorem stderrLines_stderr (l : String) (es : List Event) :
    stderrLines (.stderr l :: es) = l :: stderrLines es := rfl
@[simp] theorem stderrLines_osStat (p : String) (es : List Event) :
    stderrLines (.osStat p :: es) = stderrLines es := rfl
@[simp] theorem stderrLines_osLstat (p : String) (es : List Event) :
    stderrLines (.osLstat p :: es) = stderrLines es := rfl
@[simp] theorem stderrLines_readDirNames (p : String) (es : List Event) :
    stderrLines (.readDirNames p :: es) = stderrLines es := rfl
@[simp] theorem stderrLines_osOpen (p : String) (es : List Event) :
    stderrLines (.osOpen p :: es) = stderrLines es := rfl
@[simp] theorem stderrLines_fileRead (p : String) (es : List Event) :
    stderrLines (.fileRead p :: es) = stderrLines es := rfl
@[simp] theorem stderrLines_fileClose (p : String) (es : List Event) :
    stderrLines (.fileClose p :: es) = stderrLines es := rfl
@[simp] theorem stderrLines_osChmod (p : String) (m : FileMode) (es : List Event) :
    stderrLines (.osChmod p m :: es) = stderrLines es := rfl
@[simp] theorem stderrLines_walkFnCall (p : String) (es : List Event) :
    stderrLines (.walkFnCall p :: es) = stderrLines es := rfl
@[simp] theorem stderrLines_stdout (l : String) (es : List Event) :
    stderrLines (.stdout l :: es) = stderrLines es := rfl

@[simp] theorem delivered_nil : delivered [] = [] := rfl
@[simp] theorem delivered_walkFnCall (p : String) (es : List Event) :
    delivered (.walkFnCall p :: es) = p :: delivered es := rfl
@[simp] theorem delivered_osStat (p : String) (es : List Event) :
    delivered (.osStat p :: es) = delivered es := rfl
@[simp] theorem delivered_osLstat (p : String) (es : List Event) :
    delivered (.osLstat p :: es) = delivered es := rfl
@[simp] theorem delivered_readDirNames (p : String) (es : List Event) :
    delivered (.readDirNames p :: es) = delivered es := rfl
@[simp] theorem delivered_osOpen (p : String) (es : List Event) :
    delivered (.osOpen p :: es) = delivered es := rfl
@[simp] theorem delivered_fileRead (p : String) (es : List Event) :
    delivered (.fileRead p :: es) = delivered es := rfl
@[simp] theorem delivered_fileClose (p : String) (es : List Event) :
    delivered (.fileClose p :: es) = delivered es := rfl
@[simp] theorem delivered_osChmod (p : String) (m : FileMode) (es : List Event) :
    delivered (.osChmod p m :: es) = delivered es := rfl
@[simp] theorem delivered_stdout (l : String) (es : List Event) :
    delivered (.stdout l :: es) = delivered es := rfl
@[simp] theorem delivered_stderr (l : String) (es : List Event) :
    delivered (.stderr l :: es) = delivered es := rfl

@[simp] theorem stderrLines_append (a b : List Event) :
    stderrLines (a ++ b) = stderrLines a ++ stderrLines b := by
  induction a with
  | nil => rfl
  | cons x xs ih => cases x <;> simp [ih]

@[simp] theorem delivered_append (a b : List Event) :
    delivered (a ++ b) = delivered a ++ delivered b := by
  induction a with
  | nil => rfl
  | cons x xs ih => cases x <;> simp [ih]

/-- A handler writes nothing to the error stream and invokes no callback. -/
theorem handleNode_events (env : Env) (path : String) (node : Node) :
    stderrLines (handleNode env path node).2.events = [] ∧
    delivered (handleNode env path node).2.events = [] := by
  cases node with
  | dir m es =>
    simp only [handleNode, handleDir]
    cases env.chmodErr path m <;> simp
  | file m c =>
    simp only [handleNode, handleFile, isExecutable, fileRead]
    cases env.openErr path m <;> cases env.readErr path <;> cases env.closeErr path <;>
      cases env.chmodErr path m <;> simp <;>
      split_ifs <;> simp

/-- A handler that succeeds leaves the node at its fixed mode. -/
theorem handleNode_ok (env : Env) (path : String) (node : Node)
    (h : (handleNode env path node).2.err = none) :
    (handleNode env path node).1.mode = targetMode node.isDir node.content := by
  cases node with
  | dir m es =>
    simp only [handleNode, handleDir] at h ⊢
    cases hc : env.chmodErr path m <;> simp [hc] at h
    simp [Node.mode, targetMode, Node.isDir]
  | file m c =>
    simp only [handleNode, handleFile] at h ⊢
    cases hx : (isExecutable env path m c).err with
    | some e => simp [hx] at h
    | none =>
      cases hc : env.chmodErr path m with
      | some e => simp [hx, hc] at h
      | none =>
        simp [hx, hc, Node.mode, targetMode, Node.isDir, Node.content,
          isExecutable_classify env path m c hx]

/-- The handler chosen for a node is the handler matching its listed entry. -/
theorem handleNode_entry (env : Env) (path : String) (node : Node) :
    (handleNode env path node).2 =
      handleEntry env ⟨path, node.isDir, node.mode, node.content⟩ := by
  cases node <;> simp [handleNode, handleEntry, Node.isDir, Node.mode, Node.content]

/-! ### Runs without any error -/

/-- A callback invocation that returns `nil` and writes nothing to the error
stream was given no traversal error and its handler succeeded. -/
theorem walkFn_clean (env : Env) (prog : String) (fe : Bool) (path : String) (node : Node)
    (err : Option String)
    (hret : (walkFn env prog fe path (some node) err).ret = .nil)
    (hlog : stderrLines (walkFn env prog fe path (some node) err).events = []) :
    err = none ∧ (handleNode env path node).2.err = none ∧
      (walkFn env prog fe path (some node) err).node = some (handleNode env path node).1 := by
  have hev := (handleNode_events env path node).1
  unfold walkFn at hret hlog ⊢
  cases err <;> cases fe <;> cases h : (handleNode env path node).2.err <;>
    simp_all

/-- A callback invocation with a nil `info` never returns `nil`. -/
theorem walkFn_nil_info (env : Env) (prog : String) (fe : Bool) (path : String)
    (err : Option String) : (walkFn env prog fe path none err).ret ≠ .nil := by
  unfold walkFn
  cases err <;> cases fe <;> simp

mutual
/-- A walk that returns `nil` and writes nothing to the error stream leaves
the tree with every entry at its fixed mode. -/
theorem walk_clean (env : Env) (prog : String) (fe : Bool) :
    ∀ (node : Node) (path : String), (walk env prog fe path node).ret = .nil →
      stderrLines (walk env prog fe path node).events = [] →
      (walk env prog fe path node).node = normalize node
  | .file m c, path => by
    rw [walk]
    intro hret hlog
    obtain ⟨-, hok, hnode⟩ := walkFn_clean env prog fe path _ _ hret hlog
    have hm := handleNode_ok env path _ hok
    simp only [hnode, Option.getD_some, hm, normalize, Node.isDir, Node.content]
  | .dir m es, path => by
    rw [walk]
    simp only []
    split_ifs with hcond
    · intro hret hlog
      simp only [stderrLines_readDirNames] at hlog
      obtain ⟨hnone, -, -⟩ := walkFn_clean env prog fe path _ _ hret hlog
      exact absurd hret (by rcases hcond with h | h; exact absurd hnone h; exact h)
    · intro hret hlog
      simp only [stderrLines_readDirNames, stderrLines_osLstat, stderrLines_append, List.append_eq_nil] at hlog
      have hr : (walkFn env prog fe path (some (.dir m es)) (env.readdirErr path m)).ret
          = .nil := by
        by_contra h; exact hcond (Or.inr h)
      obtain ⟨-, hok, hnode⟩ := walkFn_clean env prog fe path _ _ hr hlog.1
      have hm := handleNode_ok env path _ hok
      have ih := walkEntries_clean env prog fe es path _ hret hlog.2
      have hd : targetMode (Node.dir m es).isDir (Node.dir m es).content = dirMode := rfl
      simp only [hnode, Option.getD_some, hm, hd, normalize] at ih ⊢
      rw [ih]
/-- The loop over the entries, when it returns `nil` and writes nothing to
the error stream, leaves every entry at its fixed mode. -/
theorem walkEntries_clean (env : Env) (prog : String) (fe : Bool) :
    ∀ (es : Entries) (path : String) (dmode : FileMode),
      (walkEntries env prog fe path dmode es).ret = .nil →
      stderrLines (walkEntries env prog fe path dmode es).events = [] →
      (walkEntries env prog fe path dmode es).entries = normalizeEntries es
  | .nil, path, dmode => by
    intro _ _
    rw [walkEntries, normalizeEntries]
  | .cons name node rest, path, dmode => by
    rw [walkEntries]
    simp only []
    split
    · split_ifs with hcond
      · intro hret _
        exact absurd hret hcond
      · intro _ _
        exact absurd (not_not.mp hcond) (walkFn_nil_info env prog fe _ _)
    · split_ifs with hcond
      · intro hret _
        exact absurd hret hcond
      · intro hret hlog
        simp only [stderrLines_readDirNames, stderrLines_osLstat, stderrLines_append, List.append_eq_nil] at hlog
        have h1 := walk_clean env prog fe node (Join path name) (not_not.mp hcond) hlog.1
        have h2 := walkEntries_clean env prog fe rest path dmode hret hlog.2
        simp only [h1, h2, normalizeEntries]
end

/-! ### A tree at its fixed modes is a fixed point of the walk -/

/-- A handler leaves a node at its fixed mode as it is, whether it fails or not. -/
theorem handleNode_normalize (env : Env) (path : String) (node : Node) :
    (handleNode env path (normalize node)).1 = normalize node := by
  cases node with
  | dir m es =>
    simp only [normalize, handleNode, handleDir]
    cases env.chmodErr path dirMode <;> rfl
  | file m c =>
    simp only [normalize, handleNode, handleFile]
    cases hx : (isExecutable env path (targetMode false c) c).err with
    | some e => rfl
    | none =>
      cases env.chmodErr path (targetMode false c) with
      | some e => rfl
      | none =>
        have hcl := isExecutable_classify env path _ c hx
        simp only [hcl]
        rfl

/-- The callback leaves a node at its fixed mode as it is. -/
theorem walkFn_normalize (env : Env) (prog : String) (fe : Bool) (path : String) (node : Node)
    (err : Option String) :
    (walkFn env prog fe path (some (normalize node)) err).node = some (normalize node) := by
  have h := handleNode_normalize env path node
  unfold walkFn
  cases err <;> cases fe <;> cases hh : (handleNode env path (normalize node)).2.err <;>
    simp [h, hh]

mutual
/-- The walk leaves a tree at its fixed modes as it is, whatever fails. -/
theorem walk_normalize (env : Env) (prog : String) (fe : Bool) :
    ∀ (node : Node) (path : String),
      (walk env prog fe path (normalize node)).node = normalize node
  | .file m c, path => by
    have h := walkFn_normalize env prog fe path (.file m c) none
    rw [normalize] at h ⊢
    rw [walk]
    simp only [h, Option.getD_some, Node.mode]
  | .dir m es, path => by
    have h := walkFn_normalize env prog fe path (.dir m es) (env.readdirErr path dirMode)
    rw [normalize] at h ⊢
    rw [walk]
    simp only [h, Option.getD_some, Node.mode]
    split_ifs
    · rfl
    · simp only [walkEntries_normalize env prog fe es path dirMode]
/-- The loop over the entries leaves entries at their fixed modes as they are. -/
theorem walkEntries_normalize (env : Env) (prog : String) (fe : Bool) :
    ∀ (es : Entries) (path : String) (dmode : FileMode),
      (walkEntries env prog fe path dmode (normalizeEntries es)).entries = normalizeEntries es
  | .nil, path, dmode => by
    rw [normalizeEntries, walkEntries]
  | .cons name node rest, path, dmode => by
    rw [normalizeEntries, walkEntries]
    simp only []
    have h1 := walk_normalize env prog fe node (Join path name)
    have h2 := walkEntries_normalize env prog fe rest path dmode
    split <;> split_ifs <;> simp only [h1, h2]
end

/-- The walk from the root leaves a tree at its fixed modes as it is. -/
theorem Walk_normalize (env : Env) (prog : String) (fe : Bool) (root : String) (node : Node) :
    (Walk env prog fe root (normalize node)).node = normalize node := by
  unfold Walk
  split
  · rfl
  · exact walk_normalize env prog fe node root

/-- A walk from the root that returns `nil` and writes nothing to the error
stream leaves the tree with every entry at its fixed mode. -/
theorem Walk_clean (env : Env) (prog : String) (fe : Bool) (root : String) (node : Node)
    (hret : (Walk env prog fe root node).ret = .nil)
    (hlog : stderrLines (Walk env prog fe root node).events = []) :
    (Walk env prog fe root node).node = normalize node := by
  unfold Walk at hret hlog ⊢
  split at hret
  · exact absurd hret (walkFn_nil_info env prog fe root _)
  · rename_i hl
    simp only [hl, stderrLines_osLstat] at hlog ⊢
    exact walk_clean env prog fe node root hret hlog

/-! ### The whole run -/

mutual
/-- The fixed modes do not depend on the permission bits of the tree. -/
theorem normalize_withMode (k : FileMode) : ∀ (node : Node),
    normalize (withMode k node) = normalize node
  | .file m c => by rw [withMode, normalize, normalize]
  | .dir m es => by rw [withMode, normalize, normalize, normalizeEntries_withMode k es]
/-- The fixed modes of entries do not depend on their permission bits. -/
theorem normalizeEntries_withMode (k : FileMode) : ∀ (es : Entries),
    normalizeEntries (withModeEntries k es) = normalizeEntries es
  | .nil => by rw [withModeEntries]
  | .cons name node rest => by
    rw [withModeEntries, normalizeEntries, normalizeEntries, normalize_withMode k node,
      normalizeEntries_withMode k rest]
end

mutual
/-- Every entry listed of a tree at its fixed modes has its fixed mode. -/
theorem flat_normalize : ∀ (node : Node) (path : String),
    flat path (normalize node) = (flat path node).map Entry.fixed
  | .file m c, path => by simp [normalize, flat, Entry.fixed]
  | .dir m es, path => by
    simp [normalize, flat, Entry.fixed, flatEntries_normalize es path, targetMode]
/-- Every entry listed of entries at their fixed modes has its fixed mode. -/
theorem flatEntries_normalize : ∀ (es : Entries) (path : String),
    flatEntries path (normalizeEntries es) = (flatEntries path es).map Entry.fixed
  | .nil, path => by simp [normalizeEntries, flatEntries]
  | .cons name node rest, path => by
    simp [normalizeEntries, flatEntries, flat_normalize node (Join path name),
      flatEntries_normalize rest path]
end

/-- What `isValidPath` reports without error is what the object at the path
is, so the last alternative of `main` is never taken. -/
theorem isValidPath_sound (env : Env) (path : String) (fs : Option Node)
    (herr : (isValidPath env path fs).err = none)
    (hex : (isValidPath env path fs).exists_ = true) :
    ∃ node, fs = some node ∧ (isValidPath env path fs).isDir = node.isDir := by
  unfold isValidPath osStat at herr hex ⊢
  cases hs : env.statErr path <;> cases fs <;> simp_all

/-- The run on a directory whose `stat` succeeds is the walk followed by the exit. -/
theorem main_dir (env : Env) (osArgs : List String) (args : Args) (fixPath : String)
    (node : Node)
    (hv : args.PrintVersion = false) (hp : args.FixPath = some fixPath) (hne : fixPath ≠ "")
    (hstat : env.statErr fixPath = none) (hdir : node.isDir = true) :
    main env osArgs args (some node) =
      match (Walk env (progSignature osArgs) args.FailEarly fixPath node).ret with
      | .nil => ⟨some (Walk env (progSignature osArgs) args.FailEarly fixPath node).node,
          .code 0, Event.osStat fixPath ::
            (Walk env (progSignature osArgs) args.FailEarly fixPath node).events⟩
      | .err e => ⟨some (Walk env (progSignature osArgs) args.FailEarly fixPath node).node,
          .code 2, Event.osStat fixPath ::
            (Walk env (progSignature osArgs) args.FailEarly fixPath node).events ++
            [.stderr (progSignature osArgs ++ ": failed to fix path " ++ fixPath ++ ": "
              ++ e ++ "\n")]⟩
      | .fault => ⟨some (Walk env (progSignature osArgs) args.FailEarly fixPath node).node,
          .fault, Event.osStat fixPath ::
            (Walk env (progSignature osArgs) args.FailEarly fixPath node).events⟩ := by
  unfold main
  simp [hv, hp, hne, isValidPath, osStat, hstat, hdir]

/-- The run on a regular file whose `stat` succeeds is `handleFile` followed by the exit. -/
theorem main_file (env : Env) (osArgs : List String) (args : Args) (fixPath : String)
    (m : FileMode) (c : List Byte)
    (hv : args.PrintVersion = false) (hp : args.FixPath = some fixPath) (hne : fixPath ≠ "")
    (hstat : env.statErr fixPath = none) :
    main env osArgs args (some (.file m c)) =
      match (handleFile env fixPath m c).err with
      | some e => ⟨some (.file (handleFile env fixPath m c).mode c), .code 2,
          Event.osStat fixPath :: (handleFile env fixPath m c).events ++
            [.stderr (progSignature osArgs ++ ": failed to handle provided file: " ++ e ++ "\n")]⟩
      | none => ⟨some (.file (handleFile env fixPath m c).mode c), .code 0,
          Event.osStat fixPath :: (handleFile env fixPath m c).events⟩ := by
  unfold main
  simp [hv, hp, hne, isValidPath, osStat, hstat, Node.isDir]

/-- A run that fails in `stat` exits with code 2 and leaves the object as it is. -/
theorem main_stat_err (env : Env) (osArgs : List String) (args : Args) (fixPath e : String)
    (fs : Option Node)
    (hv : args.PrintVersion = false) (hp : args.FixPath = some fixPath) (hne : fixPath ≠ "")
    (hstat : env.statErr fixPath = some e) :
    main env osArgs args fs = ⟨fs, .code 2, [.osStat fixPath,
      .stderr (progSignature osArgs ++ ": failed to validate path: " ++ e ++ "\n")]⟩ := by
  unfold main
  simp [hv, hp, hne, isValidPath, osStat, hstat]

/-- A run of exit code 0 that writes nothing to the error stream leaves the
tree with every entry at its fixed mode. -/
theorem main_clean (env : Env) (osArgs : List String) (args : Args) (fixPath : String)
    (node : Node)
    (hv : args.PrintVersion = false) (hp : args.FixPath = some fixPath) (hne : fixPath ≠ "")
    (hexit : (main env osArgs args (some node)).exit = .code 0)
    (hlog : stderrLines (main env osArgs args (some node)).events = []) :
    (main env osArgs args (some node)).fs = some (normalize node) := by
  cases hstat : env.statErr fixPath with
  | some e =>
    rw [main_stat_err env osArgs args fixPath e _ hv hp hne hstat] at hexit
    simp at hexit
  | none =>
    cases node with
    | file m c =>
      rw [main_file env osArgs args fixPath m c hv hp hne hstat] at hexit hlog ⊢
      cases herr : (handleFile env fixPath m c).err with
      | some e => simp [herr] at hexit
      | none =>
        have hm := handleNode_ok env fixPath (.file m c) (by simpa [handleNode] using herr)
        simp only [handleNode, Node.mode, Node.isDir, Node.content] at hm
        simp [hm, normalize]
    | dir m es =>
      rw [main_dir env osArgs args fixPath (.dir m es) hv hp hne hstat rfl] at hexit hlog ⊢
      cases hret : (Walk env (progSignature osArgs) args.FailEarly fixPath (.dir m es)).ret with
      | nil =>
        simp only [hret, stderrLines_osStat] at hlog ⊢
        rw [Walk_clean env _ _ fixPath _ hret hlog]
      | err e => simp [hret] at hexit
      | fault => simp [hret] at hexit

/-- A run on a tree at its fixed modes leaves the tree as it is, whatever fails. -/
theorem main_normalize (env : Env) (osArgs : List String) (args : Args) (node : Node) :
    (main env osArgs args (some (normalize node))).fs = some (normalize node) := by
  cases hv : args.PrintVersion with
  | true =>
    unfold main
    simp only [hv, if_true]
    split <;> rfl
  | false =>
    cases hp : args.FixPath with
    | none => simp [main, hv, hp]
    | some fixPath =>
      by_cases hne : fixPath = ""
      · simp [main, hv, hp, hne]
      · cases hstat : env.statErr fixPath with
        | some e => rw [main_stat_err env osArgs args fixPath e _ hv hp hne hstat]
        | none =>
          cases node with
          | file m c =>
            have h := handleNode_normalize env fixPath (.file m c)
            rw [normalize] at h ⊢
            simp only [handleNode, Node.file.injEq, and_true] at h
            rw [main_file env osArgs args fixPath _ c hv hp hne hstat]
            split <;> simp [h]
          | dir m es =>
            have h := Walk_normalize env (progSignature osArgs) args.FailEarly fixPath (.dir m es)
            rw [normalize] at h ⊢
            rw [main_dir env osArgs args fixPath (.dir dirMode (normalizeEntries es)) hv hp hne hstat rfl]
            split <;> simp [h]

/-- The object a run on a directory leaves is the one the walk leaves. -/
theorem main_dir_fs (env : Env) (osArgs : List String) (args : Args) (fixPath : String)
    (node : Node)
    (hv : args.PrintVersion = false) (hp : args.FixPath = some fixPath) (hne : fixPath ≠ "")
    (hstat : env.statErr fixPath = none) (hdir : node.isDir = true) :
    (main env osArgs args (some node)).fs =
      some (Walk env (progSignature osArgs) args.FailEarly fixPath node).node := by
  rw [main_dir env osArgs args fixPath node hv hp hne hstat hdir]
  split <;> rfl

/-- The object a run on a regular file leaves is the one `handleFile` leaves. -/
theorem main_file_fs (env : Env) (osArgs : List String) (args : Args) (fixPath : String)
    (m : FileMode) (c : List Byte)
    (hv : args.PrintVersion = false) (hp : args.FixPath = some fixPath) (hne : fixPath ≠ "")
    (hstat : env.statErr fixPath = none) :
    (main env osArgs args (some (.file m c))).fs =
      some (.file (handleFile env fixPath m c).mode c) := by
  rw [main_file env osArgs args fixPath m c hv hp hne hstat]
  split <;> rfl


/-! ### The walk with fail-early -/

theorem StoppedAt.zero (e : Entry) (tl : List Entry) (msg : String)
    (fs : List (Option String)) :
    StoppedAt (e :: tl) (some msg :: fs) 0 (e :: tl) (.err msg) [e.path] := by
  refine ⟨by simp, by simp, Or.inr ⟨by simp, msg, by simp, rfl, by simp⟩⟩

theorem StoppedAt.append_stop {A B out : List Entry} {fA fB : List (Option String)} {k : Nat}
    {ret : Ret} {calls : List String} (h : StoppedAt A fA k out ret calls)
    (hk : k < A.length) (hlen : fA.length = A.length) :
    StoppedAt (A ++ B) (fA ++ fB) k (out ++ B) ret calls := by
  obtain ⟨hout, hnone, hcase⟩ := h
  have hret : ∃ msg, fA[k]? = some (some msg) ∧ ret = .err msg ∧
      calls = (A.take (k + 1)).map Entry.path := by
    rcases hcase with ⟨hk2, -, -⟩ | ⟨-, h2⟩
    · omega
    · exact h2
  obtain ⟨msg, hm, hr, hc⟩ := hret
  refine ⟨?_, ?_, Or.inr ⟨by simp; omega, msg, ?_, hr, ?_⟩⟩
  · rw [hout, List.take_append_of_le_length (by omega),
      List.drop_append_of_le_length (by omega), List.append_assoc]
  · rw [List.take_append_of_le_length (by omega)]
    exact hnone
  · rw [List.getElem?_append_left (by omega)]
    exact hm
  · rw [hc, List.take_append_of_le_length (by omega)]

theorem StoppedAt.append_go {A B out : List Entry} {fA fB : List (Option String)} {k : Nat}
    {ret : Ret} {calls : List String} (h : StoppedAt B fB k out ret calls)
    (hA : ∀ f ∈ fA, f = none) (hlen : fA.length = A.length) :
    StoppedAt (A ++ B) (fA ++ fB) (A.length + k) (A.map Entry.fixed ++ out) ret
      (A.map Entry.path ++ calls) := by
  obtain ⟨hout, hnone, hcase⟩ := h
  refine ⟨?_, ?_, ?_⟩
  · rw [hout, List.take_append, List.drop_append, List.map_append, List.append_assoc]
  · rw [← hlen, List.take_append]
    intro f hf
    rcases List.mem_append.mp hf with h1 | h1
    · exact hA f h1
    · exact hnone f h1
  · rcases hcase with ⟨hk, hr, hc⟩ | ⟨hk, msg, hm, hr, hc⟩
    · exact Or.inl ⟨by simp [hk], hr, by simp [hc]⟩
    · refine Or.inr ⟨by simp; omega, msg, ?_, hr, ?_⟩
      · rw [← hlen, List.getElem?_append_right (by omega)]
        simpa using hm
      · rw [hc, Nat.add_assoc, List.take_append, List.map_append]

theorem StoppedAt.cons_go {L out : List Entry} {fs : List (Option String)} {k : Nat}
    {ret : Ret} {calls : List String} (e : Entry) (h : StoppedAt L fs k out ret calls) :
    StoppedAt (e :: L) (none :: fs) (k + 1) (e.fixed :: out) ret (e.path :: calls) := by
  have := @StoppedAt.append_go [e] L out [none] fs k ret calls h (by simp) rfl
  simpa [Nat.add_comm] using this

theorem StoppedAt.all (A : List Entry) (fs : List (Option String))
    (h : ∀ f ∈ fs, f = none) :
    StoppedAt A fs A.length (A.map Entry.fixed) .nil (A.map Entry.path) := by
  refine ⟨by simp, fun f hf => h f (List.mem_of_mem_take hf), Or.inl ⟨rfl, rfl, rfl⟩⟩

/-- The listing of a tree starts with its root. -/
theorem flat_head (path : String) (node : Node) :
    ∃ tl, flat path node = ⟨path, node.isDir, node.mode, node.content⟩ :: tl := by
  cases node with
  | file m c => exact ⟨[], by simp [flat, Node.isDir, Node.mode, Node.content]⟩
  | dir m es => exact ⟨flatEntries path es, by simp [flat, Node.isDir, Node.mode, Node.content]⟩

/-- A handler that fails leaves the permission bits as they were. -/
theorem handleNode_err (env : Env) (path : String) (node : Node) (e : String)
    (h : (handleNode env path node).2.err = some e) :
    (handleNode env path node).1 = node := by
  cases node with
  | dir m es =>
    simp only [handleNode, handleDir] at h ⊢
    cases hc : env.chmodErr path m <;> simp [hc] at h ⊢
  | file m c =>
    simp only [handleNode, handleFile] at h ⊢
    cases hx : (isExecutable env path m c).err with
    | some e => simp [hx]
    | none => cases hc : env.chmodErr path m <;> simp [hx, hc] at h ⊢

/-- With fail-early, a traversal error makes the callback return a non-nil
error without touching the object. -/
theorem walkFn_failEarly_iterate (env : Env) (prog path : String) (info : Option Node)
    (e : String) :
    walkFn env prog true path info (some e) =
      ⟨.err ("iterate over path " ++ path ++ ": " ++ e), info, [.walkFnCall path]⟩ := by
  unfold walkFn; rfl

/-- With fail-early and no traversal error, the callback either handles
the node successfully and returns `nil`, or the handler fails, the node
keeps its bits and the callback returns a non-nil error. -/
theorem walkFn_failEarly_handle (env : Env) (prog path : String) (node : Node) :
    delivered (walkFn env prog true path (some node) none).events = [path] ∧
    stderrLines (walkFn env prog true path (some node) none).events = [] ∧
    (((walkFn env prog true path (some node) none).ret = .nil ∧
      (handleNode env path node).2.err = none ∧
      (walkFn env prog true path (some node) none).node = some (handleNode env path node).1) ∨
     ((∃ e, (handleNode env path node).2.err = some e ∧
        (walkFn env prog true path (some node) none).ret = .err ("handle path " ++ path ++ ": " ++ e)) ∧
      (walkFn env prog true path (some node) none).node = some node)) := by
  have hev := handleNode_events env path node
  unfold walkFn
  cases h : (handleNode env path node).2.err with
  | none => simp [h, hev]
  | some e => simp [h, hev, handleNode_err env path node e h]

/-- The error of the root entry of a tree whose `lstat` succeeded, in terms
of the directory read and the handler of the node. -/
theorem entryErr_node (env : Env) (path : String) (node : Node) :
    entryErr env none ⟨path, node.isDir, node.mode, node.content⟩ =
      match (if node.isDir then env.readdirErr path node.mode else none) with
      | some x => some ("iterate over path " ++ path ++ ": " ++ x)
      | none => (handleNode env path node).2.err.map fun x =>
          "handle path " ++ path ++ ": " ++ x := by
  rw [handleNode_entry]
  rfl

/-- The errors of a tree whose root `lstat` succeeded, listed as those of entries
below a directory with `dirMode`. -/
theorem map_childErr (env : Env) (e : Entry) (tl : List Entry)
    (h : env.lstatErr e.path (some dirMode) = none) :
    (e :: tl).map (childErr env) = walkErrs env none (e :: tl) := by
  simp [walkErrs, childErr, h]

theorem walkErrs_length (env : Env) (lst : Option String) (es : List Entry) :
    (walkErrs env lst es).length = es.length := by
  cases es <;> simp [walkErrs]

mutual
/-- With fail-early the walk handles the entries in listing order and stops
at the first one that has an error. -/
theorem walk_failEarly (env : Env) (prog : String) :
    ∀ (node : Node) (path : String), ∃ k,
      StoppedAt (flat path node) (walkErrs env none (flat path node)) k
        (flat path (walk env prog true path node).node)
        (walk env prog true path node).ret (delivered (walk env prog true path node).events)
  | .file m c, path => by
    rw [walk]
    have hE := entryErr_node env path (.file m c)
    simp only [Node.isDir, Node.mode, Node.content, Bool.false_eq_true, if_false] at hE
    obtain ⟨hd, -, h⟩ := walkFn_failEarly_handle env prog path (.file m c)
    rcases h with ⟨hret, hok, hnode⟩ | ⟨⟨e, he, hret⟩, hnode⟩
    · refine ⟨1, ?_⟩
      have hm := handleNode_ok env path _ hok
      simp only [hnode, Option.getD_some, hm, hret, hd, Node.isDir, Node.content, flat,
        walkErrs, List.map_nil]
      exact StoppedAt.all [⟨path, false, m, c⟩] _ (by simp [hE, hok])
    · refine ⟨0, ?_⟩
      simp only [hnode, Option.getD_some, hret, hd, Node.mode, flat, walkErrs, List.map_nil,
        hE, he, Option.map_some']
      exact StoppedAt.zero ⟨path, false, m, c⟩ [] _ _
  | .dir m es, path => by
    rw [walk]
    simp only []
    have hE := entryErr_node env path (.dir m es)
    simp only [Node.isDir, Node.mode, Node.content, if_true] at hE
    cases hrd : env.readdirErr path m with
    | some e =>
      refine ⟨0, ?_⟩
      rw [walkFn_failEarly_iterate]
      simp only [ne_eq, reduceCtorEq, not_false_eq_true, true_or, if_true, Option.getD_some,
        Node.mode, delivered_readDirNames, delivered_walkFnCall, delivered_nil, flat,
        walkErrs, hE, hrd]
      exact StoppedAt.zero ⟨path, true, m, []⟩ _ _ _
    | none =>
      simp only [hrd] at hE
      obtain ⟨hd, -, h⟩ := walkFn_failEarly_handle env prog path (.dir m es)
      rcases h with ⟨hret, hok, hnode⟩ | ⟨⟨e, he, hret⟩, hnode⟩
      · have hm := handleNode_ok env path _ hok
        have hd2 : targetMode (Node.dir m es).isDir (Node.dir m es).content = dirMode := rfl
        obtain ⟨k, hk⟩ := walkEntries_failEarly env prog es path
        refine ⟨k + 1, ?_⟩
        simp only [hnode, Option.getD_some, hm, hd2, hret, ne_eq, not_true_eq_false, or_self,
          if_false, flat, delivered_readDirNames, delivered_append, hd, walkErrs, hE, hok,
          Option.map_none']
        exact StoppedAt.cons_go ⟨path, true, m, []⟩ hk
      · refine ⟨0, ?_⟩
        simp only [hnode, Option.getD_some, hret, ne_eq, reduceCtorEq, not_false_eq_true,
          or_true, if_true, Node.mode, flat, delivered_readDirNames, hd, walkErrs, hE, he,
          Option.map_some']
        exact StoppedAt.zero ⟨path, true, m, []⟩ _ _ _
/-- With fail-early the loop over the entries of a directory that has got
`dirMode` handles them in listing order and stops at the first one that
has an error. -/
theorem walkEntries_failEarly (env : Env) (prog : String) :
    ∀ (es : Entries) (path : String), ∃ k,
      StoppedAt (flatEntries path es) ((flatEntries path es).map (childErr env)) k
        (flatEntries path (walkEntries env prog true path dirMode es).entries)
        (walkEntries env prog true path dirMode es).ret
        (delivered (walkEntries env prog true path dirMode es).events)
  | .nil, path => by
    refine ⟨0, ?_⟩
    rw [walkEntries]
    simp only [flatEntries, delivered_nil, List.map_nil]
    exact StoppedAt.all [] [] (by simp)
  | .cons name node rest, path => by
    rw [walkEntries]
    simp only []
    obtain ⟨tl, htl⟩ := flat_head (Join path name) node
    cases hl : env.lstatErr (Join path name) (some dirMode) with
    | some e =>
      refine ⟨0, ?_⟩
      have hc : childErr env ⟨Join path name, node.isDir, node.mode, node.content⟩ =
          some ("iterate over path " ++ Join path name ++ ": " ++ e) := by
        simp [childErr, entryErr, hl]
      simp only [walkFn_failEarly_iterate, ne_eq, reduceCtorEq, not_false_eq_true, if_true,
        delivered_osLstat, delivered_walkFnCall, delivered_nil, flatEntries, htl,
        List.cons_append, List.map_cons, hc]
      exact StoppedAt.zero _ _ _ _
    | none =>
      simp only []
      obtain ⟨k1, h1⟩ := walk_failEarly env prog node (Join path name)
      have hmap : (flat (Join path name) node).map (childErr env)
          = walkErrs env none (flat (Join path name) node) := by
        rw [htl]
        exact map_childErr env _ tl hl
      rw [← hmap] at h1
      have hlen : ((flat (Join path name) node).map (childErr env)).length
          = (flat (Join path name) node).length := by simp
      by_cases hret : (walk env prog true (Join path name) node).ret = .nil
      · obtain ⟨k2, h2⟩ := walkEntries_failEarly env prog rest path
        refine ⟨(flat (Join path name) node).length + k2, ?_⟩
        simp only [hret, ne_eq, not_true_eq_false, if_false, flatEntries, delivered_osLstat,
          delivered_append, List.map_append]
        have hA : flat (Join path name) (walk env prog true (Join path name) node).node
            = (flat (Join path name) node).map Entry.fixed ∧
            delivered (walk env prog true (Join path name) node).events
              = (flat (Join path name) node).map Entry.path ∧
            ∀ f ∈ (flat (Join path name) node).map (childErr env), f = none := by
          obtain ⟨hout, hnone, hcase⟩ := h1
          rcases hcase with ⟨hk, -, hc⟩ | ⟨-, msg, -, hmsg, -⟩
          · subst hk
            simp only [List.take_length, List.drop_length, List.append_nil] at hout
            refine ⟨hout, hc, ?_⟩
            rw [← hlen, List.take_length] at hnone
            exact hnone
          · rw [hret] at hmsg
            exact absurd hmsg (by simp)
        rw [hA.1, hA.2.1]
        exact StoppedAt.append_go h2 hA.2.2 hlen
      · refine ⟨k1, ?_⟩
        simp only [hret, ne_eq, not_false_eq_true, if_true, flatEntries, delivered_osLstat,
          List.map_append]
        have hk : k1 < (flat (Join path name) node).length := by
          rcases h1.2.2 with ⟨-, hr, -⟩ | ⟨hk, -⟩
          · exact absurd hr hret
          · exact hk
        exact StoppedAt.append_stop h1 hk hlen
end

/-- With fail-early the callback writes nothing to the error stream. -/
theorem walkFn_failEarly_quiet (env : Env) (prog path : String) (info : Option Node)
    (err : Option String) : stderrLines (walkFn env prog true path info err).events = [] := by
  unfold walkFn
  cases err with
  | some e => rfl
  | none =>
    cases info with
    | none => rfl
    | some node =>
      have hev := (handleNode_events env path node).1
      cases h : (handleNode env path node).2.err <;> simp [h, hev]

mutual
/-- With fail-early the walk writes nothing to the error stream. -/
theorem walk_failEarly_quiet (env : Env) (prog : String) :
    ∀ (node : Node) (path : String), stderrLines (walk env prog true path node).events = []
  | .file m c, path => by
    rw [walk]
    exact walkFn_failEarly_quiet env prog path _ _
  | .dir m es, path => by
    rw [walk]
    simp only []
    split_ifs <;>
      simp [walkFn_failEarly_quiet, walkEntries_failEarly_quiet env prog es path]
/-- With fail-early the loop over the entries writes nothing to the error stream. -/
theorem walkEntries_failEarly_quiet (env : Env) (prog : String) :
    ∀ (es : Entries) (path : String) (dmode : FileMode),
      stderrLines (walkEntries env prog true path dmode es).events = []
  | .nil, path, dmode => by
    rw [walkEntries]; rfl
  | .cons name node rest, path, dmode => by
    rw [walkEntries]
    simp only []
    split <;> split_ifs <;>
      simp [walkFn_failEarly_quiet, walk_failEarly_quiet env prog node (Join path name),
        walkEntries_failEarly_quiet env prog rest path dmode]
end

/-! ### A second walk over the tree a walk has left -/

/-- The bits `handleDir` leaves are left as they are by a second `handleDir`. -/
theorem handleDir_twice (env : Env) (path : String) (m : FileMode) :
    (handleDir env path (handleDir env path m).mode).mode = (handleDir env path m).mode := by
  unfold handleDir
  cases h : env.chmodErr path m with
  | some e => simp [h]
  | none => cases h2 : env.chmodErr path dirMode <;> simp [h2]

/-- A handler leaves the node it has left as it is. -/
theorem handleNode_twice (env : Env) (path : String) (node : Node) :
    (handleNode env path (handleNode env path node).1).1 = (handleNode env path node).1 := by
  cases h : (handleNode env path node).2.err with
  | some e =>
    have hs := handleNode_err env path node e h
    rw [hs]
    exact hs
  | none =>
    have hm := handleNode_ok env path node h
    cases node with
    | dir m es =>
      simp only [handleNode] at hm ⊢
      rw [handleDir_twice]
    | file m c =>
      have hn := handleNode_normalize env path (.file m c)
      simp only [handleNode, Node.mode, Node.isDir, Node.content, normalize] at hm hn ⊢
      rw [hm]
      exact hn

/-- Without traversal error the callback leaves the node the handler leaves,
and a second invocation on that node leaves it as it is and fails if the
first failed. -/
theorem walkFn_twice (env : Env) (prog : String) (fe : Bool) (path : String) (node : Node) :
    (walkFn env prog fe path (some node) none).node = some (handleNode env path node).1 ∧
    (walkFn env prog fe path (some (handleNode env path node).1) none).node
      = some (handleNode env path node).1 ∧
    ((walkFn env prog fe path (some node) none).ret ≠ .nil →
      (walkFn env prog fe path (some (handleNode env path node).1) none).ret ≠ .nil) := by
  have h2 := handleNode_twice env path node
  cases fe with
  | false =>
    refine ⟨(walkFn_continue env prog path node none).2, ?_, ?_⟩
    · rw [(walkFn_continue env prog path _ none).2, h2]
    · intro h
      exact absurd (walkFn_continue env prog path node none).1 h
  | true =>
    rcases (walkFn_failEarly_handle env prog path node).2.2 with
      ⟨hret, -, hnode⟩ | ⟨⟨e, he, hret⟩, hnode⟩
    · refine ⟨hnode, ?_, fun h => absurd hret h⟩
      rcases (walkFn_failEarly_handle env prog path (handleNode env path node).1).2.2 with
        ⟨-, -, hn2⟩ | ⟨-, hn2⟩
      · rw [hn2, h2]
      · exact hn2
    · have hsame := handleNode_err env path node e he
      rw [hsame]
      exact ⟨hnode, hnode, fun _ => by rw [hret]; simp⟩

/-- Without fail-early, a directory that cannot be listed is handled and skipped. -/
theorem walk_dir_continue_unlisted (env : Env) (prog path : String) (m : FileMode)
    (es : Entries) (h : env.readdirErr path m ≠ none) :
    (walk env prog false path (.dir m es)).node = .dir (handleDir env path m).mode es ∧
    (walk env prog false path (.dir m es)).ret = .nil := by
  obtain ⟨h1, h2⟩ := walkFn_continue env prog path (.dir m es) (env.readdirErr path m)
  rw [walk]
  simp only [h, ne_eq, not_false_eq_true, true_or, if_true, h1, h2, Option.getD_some]
  exact ⟨rfl, trivial⟩

/-- Without fail-early, a directory that can be listed is handled and its entries walked. -/
theorem walk_dir_continue_listed (env : Env) (prog path : String) (m : FileMode)
    (es : Entries) (h : env.readdirErr path m = none) :
    (walk env prog false path (.dir m es)).node = .dir (handleDir env path m).mode
      (walkEntries env prog false path (handleDir env path m).mode es).entries ∧
    (walk env prog false path (.dir m es)).ret
      = (walkEntries env prog false path (handleDir env path m).mode es).ret := by
  obtain ⟨h1, h2⟩ := walkFn_continue env prog path (.dir m es) none
  rw [walk]
  simp only [h, ne_eq, not_true_eq_false, false_or, h1, h2, Option.getD_some, if_false]
  exact ⟨rfl, rfl⟩

/-- With fail-early, a directory that cannot be listed or whose `chmod` fails
stops the walk and keeps its bits. -/
theorem walk_dir_failEarly_stop (env : Env) (prog path : String) (m : FileMode)
    (es : Entries) (h : env.readdirErr path m ≠ none ∨ env.chmodErr path m ≠ none) :
    (walk env prog true path (.dir m es)).node = .dir m es ∧
    (walk env prog true path (.dir m es)).ret ≠ .nil := by
  rw [walk]
  cases hrd : env.readdirErr path m with
  | some x =>
    simp [walkFn_failEarly_iterate, Node.mode]
  | none =>
    cases hc : env.chmodErr path m with
    | none => simp [hrd, hc] at h
    | some x =>
      simp [walkFn, handleNode, handleDir, hc, Node.mode]

/-- With fail-early, a directory that can be listed and whose `chmod`
succeeds gets `dirMode` and its entries are walked. -/
theorem walk_dir_failEarly_go (env : Env) (prog path : String) (m : FileMode)
    (es : Entries) (hrd : env.readdirErr path m = none) (hc : env.chmodErr path m = none) :
    (walk env prog true path (.dir m es)).node
      = .dir dirMode (walkEntries env prog true path dirMode es).entries ∧
    (walk env prog true path (.dir m es)).ret
      = (walkEntries env prog true path dirMode es).ret := by
  rw [walk]
  simp [hrd, walkFn, handleNode, handleDir, hc, Node.mode]

mutual
/-- A second walk leaves the tree the first walk has left as it is, and
stops if the first stopped: with fail-early always, and without it when no
directory that could not be listed has become listable and, unless the
first walk returned `nil`, none that could be listed has become unlistable. -/
theorem walk_twice (env : Env) (prog : String) (fe : Bool) :
    ∀ (node : Node) (path : String),
      (fe = false → ∀ e ∈ flat path node, e.isDir = true → KeepsUnlisted env e) →
      ((walk env prog fe path node).ret = .nil ∨
        (fe = false → ∀ e ∈ flat path node, e.isDir = true → KeepsListed env e)) →
      (walk env prog fe path (walk env prog fe path node).node).node
          = (walk env prog fe path node).node ∧
      ((walk env prog fe path node).ret ≠ .nil →
        (walk env prog fe path (walk env prog fe path node).node).ret ≠ .nil)
  | .file m c, path => by
    intro _ _
    obtain ⟨h1, h2, h3⟩ := walkFn_twice env prog fe path (.file m c)
    have hn : (handleNode env path (.file m c)).1 = .file (handleFile env path m c).mode c := rfl
    rw [hn] at h1 h2 h3
    rw [walk]
    simp only [h1, Option.getD_some, Node.mode]
    rw [walk]
    simp only [h2, Option.getD_some, Node.mode]
    exact ⟨trivial, h3⟩
  | .dir m es, path => by
    intro hA hB
    have he0 : (⟨path, true, m, []⟩ : Entry) ∈ flat path (.dir m es) := by simp [flat]
    have hsub : ∀ e ∈ flatEntries path es, e ∈ flat path (.dir m es) := by
      intro e he; simp [flat, he]
    cases fe with
    | false =>
      have hA0 : KeepsUnlisted env ⟨path, true, m, []⟩ := hA rfl _ he0 rfl
      have hm := handleDir_twice env path m
      cases hrd : env.readdirErr path m with
      | some x =>
        have hne : env.readdirErr path m ≠ none := by rw [hrd]; simp
        obtain ⟨n1, r1⟩ := walk_dir_continue_unlisted env prog path m es hne
        obtain ⟨n2, r2⟩ := walk_dir_continue_unlisted env prog path
          (handleDir env path m).mode es (hA0 hne)
        rw [n1, n2, hm, r1]
        exact ⟨rfl, fun h => absurd rfl h⟩
      | none =>
        obtain ⟨n1, r1⟩ := walk_dir_continue_listed env prog path m es hrd
        have hB2 : (walkEntries env prog false path (handleDir env path m).mode es).ret = .nil ∨
            (false = false → ∀ e ∈ flatEntries path es, e.isDir = true → KeepsListed env e) := by
          rcases hB with h | h
          · exact Or.inl (by rw [← r1]; exact h)
          · exact Or.inr fun hf e he => h hf e (hsub e he)
        obtain ⟨i1, i2⟩ := walkEntries_twice env prog false es path (handleDir env path m).mode
          (fun hf e he => hA hf e (hsub e he)) hB2
        rw [n1, r1]
        cases hrd2 : env.readdirErr path (handleDir env path m).mode with
        | some y =>
          have hne2 : env.readdirErr path (handleDir env path m).mode ≠ none := by
            rw [hrd2]; simp
          obtain ⟨n2, r2⟩ := walk_dir_continue_unlisted env prog path
            (handleDir env path m).mode
            (walkEntries env prog false path (handleDir env path m).mode es).entries hne2
          rw [n2, hm]
          refine ⟨rfl, fun hret => ?_⟩
          rcases hB with h | h
          · rw [r1] at h; exact absurd h hret
          · exact absurd (h rfl _ he0 rfl hrd) hne2
        | none =>
          obtain ⟨n2, r2⟩ := walk_dir_continue_listed env prog path
            (handleDir env path m).mode
            (walkEntries env prog false path (handleDir env path m).mode es).entries hrd2
          rw [n2, r2, hm, i1]
          exact ⟨rfl, i2⟩
    | true =>
      by_cases hstop : env.readdirErr path m ≠ none ∨ env.chmodErr path m ≠ none
      · obtain ⟨n1, r1⟩ := walk_dir_failEarly_stop env prog path m es hstop
        rw [n1]
        exact ⟨n1, fun _ => r1⟩
      · have hrd : env.readdirErr path m = none := by
          by_contra h; exact hstop (Or.inl h)
        have hc : env.chmodErr path m = none := by
          by_contra h; exact hstop (Or.inr h)
        obtain ⟨n1, r1⟩ := walk_dir_failEarly_go env prog path m es hrd hc
        obtain ⟨i1, i2⟩ := walkEntries_twice env prog true es path dirMode
          (fun hf => by simp at hf) (Or.inr fun hf => by simp at hf)
        rw [n1, r1]
        by_cases hstop2 : env.readdirErr path dirMode ≠ none ∨ env.chmodErr path dirMode ≠ none
        · obtain ⟨n2, r2⟩ := walk_dir_failEarly_stop env prog path dirMode
            (walkEntries env prog true path dirMode es).entries hstop2
          exact ⟨n2, fun _ => r2⟩
        · have hrd2 : env.readdirErr path dirMode = none := by
            by_contra h; exact hstop2 (Or.inl h)
          have hc2 : env.chmodErr path dirMode = none := by
            by_contra h; exact hstop2 (Or.inr h)
          obtain ⟨n2, r2⟩ := walk_dir_failEarly_go env prog path dirMode
            (walkEntries env prog true path dirMode es).entries hrd2 hc2
          rw [n2, r2, i1]
          exact ⟨rfl, i2⟩
/-- A second walk over the entries a first walk has left leaves them as
they are, and stops if the first stopped. -/
theorem walkEntries_twice (env : Env) (prog : String) (fe : Bool) :
    ∀ (es : Entries) (path : String) (dmode : FileMode),
      (fe = false → ∀ e ∈ flatEntries path es, e.isDir = true → KeepsUnlisted env e) →
      ((walkEntries env prog fe path dmode es).ret = .nil ∨
        (fe = false → ∀ e ∈ flatEntries path es, e.isDir = true → KeepsListed env e)) →
      (walkEntries env prog fe path dmode (walkEntries env prog fe path dmode es).entries).entries
          = (walkEntries env prog fe path dmode es).entries ∧
      ((walkEntries env prog fe path dmode es).ret ≠ .nil →
        (walkEntries env prog fe path dmode (walkEntries env prog fe path dmode es).entries).ret
          ≠ .nil)
  | .nil, path, dmode => by
    intro _ _
    rw [walkEntries, walkEntries]
    exact ⟨rfl, fun h => h⟩
  | .cons name node rest, path, dmode => by
    intro hA hB
    have hsub1 : ∀ e ∈ flat (Join path name) node, e ∈ flatEntries path (.cons name node rest) := by
      intro e he; simp [flatEntries, he]
    have hsub2 : ∀ e ∈ flatEntries path rest, e ∈ flatEntries path (.cons name node rest) := by
      intro e he; simp [flatEntries, he]
    rw [walkEntries]
    cases hl : env.lstatErr (Join path name) (some dmode) with
    | some x =>
      have hne := walkFn_nil_info env prog fe (Join path name) (some x)
      simp only [hne, ne_eq, not_false_eq_true, if_true]
      rw [walkEntries]
      simp only [hl, hne, ne_eq, not_false_eq_true, if_true]
      exact ⟨trivial, fun _ => trivial⟩
    | none =>
      simp only []
      by_cases hret : (walk env prog fe (Join path name) node).ret = .nil
      · have hB1 : (walk env prog fe (Join path name) node).ret = .nil ∨
            (fe = false → ∀ e ∈ flat (Join path name) node, e.isDir = true →
              KeepsListed env e) := Or.inl hret
        obtain ⟨c1, c2⟩ := walk_twice env prog fe node (Join path name)
          (fun hf e he => hA hf e (hsub1 e he)) hB1
        have hB2 : (walkEntries env prog fe path dmode rest).ret = .nil ∨
            (fe = false → ∀ e ∈ flatEntries path rest, e.isDir = true →
              KeepsListed env e) := by
          rcases hB with h | h
          · rw [walkEntries] at h
            simp only [hl, hret, ne_eq, not_true_eq_false, if_false] at h
            exact Or.inl h
          · exact Or.inr fun hf e he => h hf e (hsub2 e he)
        obtain ⟨i1, i2⟩ := walkEntries_twice env prog fe rest path dmode
          (fun hf e he => hA hf e (hsub2 e he)) hB2
        simp only [hret, ne_eq, not_true_eq_false, if_false]
        rw [walkEntries]
        simp only [hl, c1]
        by_cases hret2 : (walk env prog fe (Join path name)
            (walk env prog fe (Join path name) node).node).ret = .nil
        · simp only [hret2, ne_eq, not_true_eq_false, if_false, i1]
          exact ⟨trivial, i2⟩
        · simp only [hret2, ne_eq, not_false_eq_true, if_true]
          exact ⟨trivial, fun _ => trivial⟩
      · have hB1 : (walk env prog fe (Join path name) node).ret = .nil ∨
            (fe = false → ∀ e ∈ flat (Join path name) node, e.isDir = true →
              KeepsListed env e) := by
          rcases hB with h | h
          · rw [walkEntries] at h
            simp only [hl, hret, ne_eq, not_false_eq_true, if_true] at h
          · exact Or.inr fun hf e he => h hf e (hsub1 e he)
        obtain ⟨c1, c2⟩ := walk_twice env prog fe node (Join path name)
          (fun hf e he => hA hf e (hsub1 e he)) hB1
        simp only [hret, ne_eq, not_false_eq_true, if_true]
        rw [walkEntries]
        simp only [hl, c1, c2 hret, ne_eq, not_false_eq_true, if_true]
        exact ⟨trivial, fun _ => trivial⟩
end

/-- The walk leaves a directory a directory. -/
theorem Walk_isDir (env : Env) (prog : String) (fe : Bool) (root : String) (node : Node)
    (h : node.isDir = true) : (Walk env prog fe root node).node.isDir = true := by
  cases node with
  | file m c => simp [Node.isDir] at h
  | dir m es =>
    unfold Walk
    cases env.lstatErr root none with
    | some e => rfl
    | none =>
      simp only []
      rw [walk]
      simp only []
      split_ifs <;> rfl

/-- A second walk from the root leaves the tree the first has left as it is. -/
theorem Walk_twice (env : Env) (prog : String) (fe : Bool) (root : String) (node : Node)
    (hA : fe = false → ∀ e ∈ flat root node, e.isDir = true → KeepsUnlisted env e)
    (hB : (Walk env prog fe root node).ret = .nil ∨
      (fe = false → ∀ e ∈ flat root node, e.isDir = true → KeepsListed env e)) :
    (Walk env prog fe root (Walk env prog fe root node).node).node
      = (Walk env prog fe root node).node := by
  unfold Walk at hB ⊢
  cases hl : env.lstatErr root none with
  | some e => simp only [hl]
  | none =>
    simp only [hl] at hB ⊢
    exact (walk_twice env prog fe node root hA hB).1

/-! ### The walk without fail-early -/

/-- Without fail-early and with a non-nil `info`, the callback runs the
handler matching the node, returns `nil`, and writes to the error stream
exactly the line for the traversal error (if any) and the line naming the
path when the handler failed. -/
theorem walkFn_continue_handle (env : Env) (prog path : String) (node : Node)
    (err : Option String) :
    (walkFn env prog false path (some node) err).ret = .nil ∧
    (walkFn env prog false path (some node) err).node = some (handleNode env path node).1 ∧
    delivered (walkFn env prog false path (some node) err).events = [path] ∧
    stderrLines (walkFn env prog false path (some node) err).events =
      (err.map fun msg =>
        prog ++ ": failed to iterate over path " ++ path ++ ": " ++ msg ++ "\n").toList ++
      ((handleNode env path node).2.err.map fun msg =>
        prog ++ ": failed to handle path " ++ path ++ ": " ++ msg ++ "\n").toList := by
  have hev := handleNode_events env path node
  unfold walkFn
  cases err <;> cases h : (handleNode env path node).2.err <;> simp [h, hev]

mutual
/-- Without fail-early, a walk that returns `nil` has invoked the callback on
every entry that is not inside a directory whose listing failed, has left
each of them as its own handler leaves it, and has written exactly their
lines to the error stream. -/
theorem walk_continue (env : Env) (prog : String) :
    ∀ (node : Node) (path : String), (walk env prog false path node).ret = .nil →
      (walk env prog false path node).node = settle env path node ∧
      delivered (walk env prog false path node).events
        = (visited env path node).map Entry.path ∧
      stderrLines (walk env prog false path node).events
        = (visited env path node).flatMap (entryLines env prog)
  | .file m c, path => by
    intro _
    rw [walk]
    obtain ⟨-, h2, h3, h4⟩ := walkFn_continue_handle env prog path (.file m c) none
    have he := handleNode_entry env path (.file m c)
    simp only [Node.isDir, Node.mode, Node.content] at he
    refine ⟨?_, by simp [h3, visited], ?_⟩
    · simp [h2, settle, handleNode, Node.mode]
    · rw [h4, he]
      simp [visited, entryLines, iterateLine, handleLine]
  | .dir m es, path => by
    intro hret
    rw [walk] at hret ⊢
    have he := handleNode_entry env path (.dir m es)
    simp only [Node.isDir, Node.mode, Node.content] at he
    have hmode : (handleNode env path (Node.dir m es)).1.mode = (handleDir env path m).mode :=
      rfl
    cases hrd : env.readdirErr path m with
    | some x =>
      obtain ⟨-, h2, h3, h4⟩ := walkFn_continue_handle env prog path (.dir m es) (some x)
      simp only [ne_eq, reduceCtorEq, not_false_eq_true, true_or, if_true, h2,
        Option.getD_some, hmode]
      refine ⟨by simp [settle, hrd], by simp [h3, visited, hrd], ?_⟩
      simp [h4, he, visited, hrd, entryLines, iterateLine, handleLine]
    | none =>
      obtain ⟨h1, h2, h3, h4⟩ := walkFn_continue_handle env prog path (.dir m es) none
      simp only [hrd, h1, ne_eq, not_true_eq_false, or_self, if_false, h2, Option.getD_some,
        hmode] at hret ⊢
      obtain ⟨i1, i2, i3⟩ := walkEntries_continue env prog es path _ hret
      refine ⟨by simp [settle, hrd, i1], by simp [h3, i2, visited, hrd], ?_⟩
      simp [h4, i3, he, visited, hrd, entryLines, iterateLine, handleLine]
/-- Without fail-early, a loop over the entries that returns `nil` has
handled every entry of the directory. -/
theorem walkEntries_continue (env : Env) (prog : String) :
    ∀ (es : Entries) (path : String) (dmode : FileMode),
      (walkEntries env prog false path dmode es).ret = .nil →
      (walkEntries env prog false path dmode es).entries = settleEntries env path es ∧
      delivered (walkEntries env prog false path dmode es).events
        = (visitedEntries env path es).map Entry.path ∧
      stderrLines (walkEntries env prog false path dmode es).events
        = (visitedEntries env path es).flatMap (entryLines env prog)
  | .nil, path, dmode => by
    intro _
    rw [walkEntries]
    simp [settleEntries, visitedEntries]
  | .cons name node rest, path, dmode => by
    intro hret
    rw [walkEntries] at hret ⊢
    cases hl : env.lstatErr (Join path name) (some dmode) with
    | some x =>
      have hne := walkFn_nil_info env prog false (Join path name) (some x)
      simp only [hl, hne, ne_eq, not_false_eq_true, if_true] at hret
    | none =>
      simp only [hl] at hret ⊢
      by_cases hc : (walk env prog false (Join path name) node).ret = .nil
      · simp only [hc, ne_eq, not_true_eq_false, if_false] at hret ⊢
        obtain ⟨h1, h2, h3⟩ := walk_continue env prog node (Join path name) hc
        obtain ⟨i1, i2, i3⟩ := walkEntries_continue env prog rest path dmode hret
        refine ⟨by simp [settleEntries, h1, i1], by simp [visitedEntries, h2, i2], ?_⟩
        simp [visitedEntries, h3, i3]
      · simp only [hc, ne_eq, not_false_eq_true, if_true] at hret
end

/-- C3: for a file that is opened, read and closed without I/O error,
`isExecutable` returns no error and classifies the file as executable
exactly when its content starts with the two bytes `#`, `!` (35, 33) or
with the four bytes `0x7F`, `E`, `L`, `F` (127, 69, 76, 70); hence a file
shorter than 2 bytes, a 2- or 3-byte file that is not a shebang, and the
3-byte prefix `0x7F`, `E`, `L` are classified not executable. -/
theorem isExecutable_classifies (env : Env) (path : String) (mode : FileMode)
    (content : List Byte)
    (hopen : env.openErr path mode = none) (hread : env.readErr path = none)
    (hclose : env.closeErr path = none) :
    (isExecutable env path mode content).err = none ∧
    ((isExecutable env path mode content).isExe = true ↔
      ((∃ rest, content = 35 :: 33 :: rest) ∨
        (∃ rest, content = 0x7F :: 69 :: 76 :: 70 :: rest))) ∧
    (content.length < 2 → (isExecutable env path mode content).isExe = false) ∧
    ((content.length = 2 ∨ content.length = 3) → (¬ ∃ rest, content = 35 :: 33 :: rest) →
      (isExecutable env path mode content).isExe = false) ∧
    (isExecutable env path mode [0x7F, 69, 76]).isExe = false := by
  have hiff := magicCheck_fileRead env path content hread
  have hiff3 := magicCheck_fileRead env path [0x7F, 69, 76] hread
  rw [isExecutable_ok env path mode content hopen hread hclose,
    isExecutable_ok env path mode [0x7F, 69, 76] hopen hread hclose]
  refine ⟨rfl, hiff, ?_, ?_, ?_⟩
  · intro hlen
    cases h : magicCheck (fileRead env path content 4).1 (fileRead env path content 4).2.1
    · rfl
    · exfalso
      rcases hiff.mp h with ⟨rest, hc⟩ | ⟨rest, hc⟩ <;> simp [hc] at hlen <;> omega
  · intro hlen hns
    cases h : magicCheck (fileRead env path content 4).1 (fileRead env path content 4).2.1
    · rfl
    · exfalso
      rcases hiff.mp h with hc | ⟨rest, hc⟩
      · exact hns hc
      · rcases hlen with hlen | hlen <;> simp [hc] at hlen
  · cases h : magicCheck (fileRead env path [0x7F, 69, 76] 4).1
        (fileRead env path [0x7F, 69, 76] 4).2.1
    · rfl
    · exfalso
      rcases hiff3.mp h with ⟨rest, hc⟩ | ⟨rest, hc⟩
      · simp at hc
      · simp at hc

/-- Witness of C3 for the script `#!/bin/sh` in an environment without failures. -/
theorem isExecutable_classifies_witness :
    (isExecutable Env.ok "run.sh" 0o644 [35, 33, 47, 98, 105, 110, 47, 115, 104, 10]).isExe
      = true :=
  ((isExecutable_classifies Env.ok "run.sh" 0o644 [35, 33, 47, 98, 105, 110, 47, 115, 104, 10]
    rfl rfl rfl).2.1).mpr (Or.inl ⟨_, rfl⟩)

/-- C7: `isExecutable` returns an error exactly when the open fails, the
read fails with an error other than end-of-file, or the close fails; a
read that meets end-of-file at once returns `0, io.EOF`, and a file of
fewer than 4 bytes (also none) gives no error but the classification of the
bytes read; with an error the boolean is false and the result does not
depend on the file content. -/
theorem isExecutable_err_iff (env : Env) (path : String) (mode : FileMode)
    (content : List Byte) :
    ((isExecutable env path mode content).err ≠ none ↔
      (env.openErr path mode ≠ none ∨ env.readErr path ≠ none ∨ env.closeErr path ≠ none)) ∧
    (env.readErr path = none →
      fileRead env path [] 4 = (0, [0, 0, 0, 0], some ReadError.EOF)) ∧
    (env.openErr path mode = none → env.readErr path = none → env.closeErr path = none →
      content.length < 4 →
      (isExecutable env path mode content).err = none ∧
      (isExecutable env path mode content).isExe =
        magicCheck content.length (content ++ List.replicate (4 - content.length) 0)) ∧
    ((isExecutable env path mode content).err ≠ none →
      (isExecutable env path mode content).isExe = false ∧
      ∀ content2, isExecutable env path mode content2 = isExecutable env path mode content) := by
  refine ⟨?_, ?_, ?_, ?_⟩
  · rw [ne_eq, isExecutable_err_none_iff]
    tauto
  · intro hr
    simp [fileRead, hr]
  · intro ho hr hc hlen
    rw [isExecutable_ok env path mode content ho hr hc]
    refine ⟨rfl, ?_⟩
    simp only [fileRead, hr]
    have hmin : min 4 content.length = content.length := by omega
    split_ifs with h0
    · have : content = [] := List.eq_nil_of_length_eq_zero h0
      subst this
      rfl
    · simp only [hmin, List.take_length]
  · intro herr
    cases ho : env.openErr path mode with
    | some e => exact ⟨by simp [isExecutable, ho], fun c2 => by simp [isExecutable, ho]⟩
    | none =>
      cases hr : env.readErr path with
      | some e =>
        exact ⟨by simp [isExecutable, fileRead, ho, hr],
          fun c2 => by simp [isExecutable, fileRead, ho, hr]⟩
      | none =>
        cases hc : env.closeErr path with
        | some e =>
          have key : ∀ c, isExecutable env path mode c = ⟨false, some ("closing file: " ++ e),
              [.osOpen path, .fileRead path, .fileClose path]⟩ := by
            intro c
            simp only [isExecutable, fileRead, ho, hr, hc]
            split_ifs <;> rfl
          exact ⟨by rw [key], fun c2 => by rw [key, key]⟩
        | none =>
          rw [isExecutable_ok env path mode content ho hr hc] at herr
          exact absurd rfl herr

/-- Witness of C7: an empty file read without failure gives no error. -/
theorem isExecutable_err_iff_witness :
    (isExecutable Env.ok "empty" 0o600 []).err = none ∧
    (isExecutable Env.ok "empty" 0o600 []).isExe = false :=
  (isExecutable_err_iff Env.ok "empty" 0o600 []).2.2.1 rfl rfl rfl (by decide)

/-- C8: `handleFile` returns an error exactly when `isExecutable` returns
one or the `chmod` fails; when both succeed the file has afterwards the
bits `execFileMode` (0750) if it was classified executable and `fileMode`
(0640) otherwise, whatever bits it had before. -/
theorem handleFile_sets_mode (env : Env) (path : String) (mode : FileMode)
    (content : List Byte) :
    ((handleFile env path mode content).err ≠ none ↔
      ((isExecutable env path mode content).err ≠ none ∨ env.chmodErr path mode ≠ none)) ∧
    ((isExecutable env path mode content).err = none → env.chmodErr path mode = none →
      (handleFile env path mode content).err = none ∧
      (handleFile env path mode content).mode =
        (if (isExecutable env path mode content).isExe then execFileMode else fileMode)) ∧
    execFileMode = 0o750 ∧ fileMode = 0o640 := by
  refine ⟨?_, ?_, rfl, rfl⟩
  · unfold handleFile
    cases hx : (isExecutable env path mode content).err <;>
      cases hc : env.chmodErr path mode <;> simp [hx, hc]
  · intro hx hc
    unfold handleFile
    simp [hx, hc]

/-- Witness of C8: a shebang script with bits 0604 ends with the bits 0750. -/
theorem handleFile_sets_mode_witness :
    (handleFile Env.ok "run.sh" 0o604 [35, 33, 47]).mode = 0o750 :=
  ((handleFile_sets_mode Env.ok "run.sh" 0o604 [35, 33, 47]).2.1 rfl rfl).2

/-! ### Claims on the walk and the run -/

/-- C1 as stated fails: for an unprivileged owner, the empty file `r/d/f`
inside a directory without read permission keeps its bits 0644 and the
unreadable script `r/x` keeps its bits 0000, although the run exits with
code 0; neither is at its fixed mode. -/
theorem main_locked_not_fixed :
    (main Env.posixOwner ["dirfixer"] argsPlain (some lockedTree)).exit = .code 0 ∧
    (main Env.posixOwner ["dirfixer"] argsPlain (some lockedTree)).fs.map (flat "r") =
      some [⟨"r", true, 0o750, []⟩, ⟨"r/d", true, 0o750, []⟩, ⟨"r/d/f", false, 0o644, []⟩,
        ⟨"r/x", false, 0, [35, 33, 47]⟩] ∧
    (isExecutable Env.ok "r/d/f" 0o644 []).isExe = false ∧ fileMode ≠ 0o644 ∧
    (isExecutable Env.ok "r/x" 0o400 [35, 33, 47]).isExe = true ∧ execFileMode ≠ 0 := by
  decide

/-- C1 amended: when the run exits with code 0 and has written nothing to
the error stream (no traversal or handling error occurred), the tree is
afterwards the original one with every directory at `dirMode`, every file
that `isExecutable` classifies as executable at `execFileMode` and every
other file at `fileMode`; this final state is the same for every
assignment of original permission bits with which the run is free of errors. -/
theorem main_clean_fixes_all (env : Env) (osArgs : List String) (args : Args)
    (fixPath : String) (node : Node)
    (hv : args.PrintVersion = false) (hp : args.FixPath = some fixPath) (hne : fixPath ≠ "")
    (hexit : (main env osArgs args (some node)).exit = .code 0)
    (hlog : stderrLines (main env osArgs args (some node)).events = []) :
    (main env osArgs args (some node)).fs = some (normalize node) ∧
    (∀ e ∈ flat fixPath (normalize node),
      (e.isDir = true → e.mode = dirMode) ∧
      (e.isDir = false → ∀ m, (isExecutable env e.path m e.content).err = none →
        e.mode = if (isExecutable env e.path m e.content).isExe then execFileMode
          else fileMode)) ∧
    (∀ node2, withMode 0 node2 = withMode 0 node →
      (main env osArgs args (some node2)).exit = .code 0 →
      stderrLines (main env osArgs args (some node2)).events = [] →
      (main env osArgs args (some node2)).fs = (main env osArgs args (some node)).fs) := by
  have h1 := main_clean env osArgs args fixPath node hv hp hne hexit hlog
  refine ⟨h1, ?_, ?_⟩
  · intro e he
    rw [flat_normalize, List.mem_map] at he
    obtain ⟨e0, -, rfl⟩ := he
    refine ⟨fun hd => ?_, fun hd m hm => ?_⟩
    · simp only [Entry.fixed] at hd ⊢
      simp [targetMode, hd]
    · simp only [Entry.fixed] at hd hm ⊢
      have hcl := isExecutable_classify env _ m _ hm
      simp [targetMode, hd, hcl]
  · intro node2 hshape hexit2 hlog2
    rw [h1, main_clean env osArgs args fixPath node2 hv hp hne hexit2 hlog2,
      ← normalize_withMode 0 node2, hshape, normalize_withMode]

/-- Witness of C1 amended: a readable tree under the checks of an unprivileged owner. -/
theorem main_clean_fixes_all_witness :
    (main Env.posixOwner ["dirfixer"] argsPlain (some readableTree)).fs
      = some (normalize readableTree) :=
  (main_clean_fixes_all Env.posixOwner ["dirfixer"] argsPlain "r" readableTree rfl rfl
    (by decide) (by decide) (by decide)).1

/-- C2 as stated fails: for an unprivileged owner a second run reaches the
file `r/d/f` inside the directory the first run made readable, and changes
its bits from 0644 to 0640. -/
theorem main_twice_differs :
    (main Env.posixOwner ["dirfixer"] argsPlain (some lockedTree)).fs.map (flat "r") =
      some [⟨"r", true, 0o750, []⟩, ⟨"r/d", true, 0o750, []⟩, ⟨"r/d/f", false, 0o644, []⟩,
        ⟨"r/x", false, 0, [35, 33, 47]⟩] ∧
    (main Env.posixOwner ["dirfixer"] argsPlain
        (main Env.posixOwner ["dirfixer"] argsPlain (some lockedTree)).fs).fs.map (flat "r") =
      some [⟨"r", true, 0o750, []⟩, ⟨"r/d", true, 0o750, []⟩, ⟨"r/d/f", false, 0o640, []⟩,
        ⟨"r/x", false, 0, [35, 33, 47]⟩] := by
  decide

/-- C2 amended: a second run on the same root leaves exactly the permission
bits the first run left when fail-early is enabled; and without fail-early
when no directory of the tree that cannot be listed with its original bits
can be listed with the bits `handleDir` leaves on it, and moreover the
first run exits with code 0 or no directory that can be listed with its
original bits cannot be listed with the bits `handleDir` leaves on it. -/
theorem main_twice_eq_once (env : Env) (osArgs : List String) (args : Args)
    (fixPath : String) (node : Node) (hp : args.FixPath = some fixPath)
    (h : args.FailEarly = true ∨
      ((∀ e ∈ flat fixPath node, e.isDir = true →
          env.readdirErr e.path e.mode ≠ none →
          env.readdirErr e.path (handleDir env e.path e.mode).mode ≠ none) ∧
       ((main env osArgs args (some node)).exit = .code 0 ∨
        ∀ e ∈ flat fixPath node, e.isDir = true →
          env.readdirErr e.path e.mode = none →
          env.readdirErr e.path (handleDir env e.path e.mode).mode = none))) :
    (main env osArgs args (main env osArgs args (some node)).fs).fs
      = (main env osArgs args (some node)).fs := by
  cases hv : args.PrintVersion with
  | true =>
    have h : ∀ fs, (main env osArgs args fs).fs = fs := by
      intro fs
      unfold main
      simp only [hv, if_true]
      split <;> rfl
    rw [h, h]
  | false =>
    by_cases hne : fixPath = ""
    · have h : ∀ fs, (main env osArgs args fs).fs = fs := by
        intro fs; simp [main, hv, hp, hne]
      rw [h, h]
    · cases hstat : env.statErr fixPath with
      | some e =>
        have h : ∀ fs, (main env osArgs args fs).fs = fs := by
          intro fs; rw [main_stat_err env osArgs args fixPath e fs hv hp hne hstat]
        rw [h, h]
      | none =>
        cases node with
        | file m c =>
          have h2 := handleNode_twice env fixPath (.file m c)
          simp only [handleNode, Node.file.injEq, and_true] at h2
          rw [main_file_fs env osArgs args fixPath m c hv hp hne hstat,
            main_file_fs env osArgs args fixPath _ c hv hp hne hstat, h2]
        | dir m es =>
          have hmain := main_dir env osArgs args fixPath (.dir m es) hv hp hne hstat rfl
          have hA : args.FailEarly = false → ∀ e ∈ flat fixPath (.dir m es),
              e.isDir = true → KeepsUnlisted env e := by
            intro hf
            rcases h with h | h
            · rw [hf] at h; exact absurd h (by simp)
            · exact h.1
          have hB : (Walk env (progSignature osArgs) args.FailEarly fixPath (.dir m es)).ret
              = .nil ∨ (args.FailEarly = false → ∀ e ∈ flat fixPath (.dir m es),
                e.isDir = true → KeepsListed env e) := by
            rcases h with h | h
            · exact Or.inr fun hf => by rw [hf] at h; exact absurd h (by simp)
            · rcases h.2 with h2 | h2
              · left
                rw [hmain] at h2
                cases hret : (Walk env (progSignature osArgs) args.FailEarly fixPath
                  (.dir m es)).ret with
                | nil => rfl
                | err e => simp [hret] at h2
                | fault => simp [hret] at h2
              · exact Or.inr fun _ => h2
          rw [main_dir_fs env osArgs args fixPath (.dir m es) hv hp hne hstat rfl,
            main_dir_fs env osArgs args fixPath _ hv hp hne hstat
              (Walk_isDir env _ _ fixPath (.dir m es) rfl),
            Walk_twice env _ _ fixPath _ hA hB]

/-- Witness of C2 amended: for an unprivileged owner, two runs without
fail-early on a tree whose directories can be listed and which holds an
unreadable script; the first run reports the script and exits with code 0. -/
theorem main_twice_eq_once_witness :
    stderrLines (main Env.posixOwner ["dirfixer"] argsPlain (some unreadableFileTree)).events
      = ["dirfixer: failed to handle path r/x: checking if executable: opening file: "
          ++ "permission denied\n"] ∧
    (main Env.posixOwner ["dirfixer"] argsPlain
        (main Env.posixOwner ["dirfixer"] argsPlain (some unreadableFileTree)).fs).fs
      = (main Env.posixOwner ["dirfixer"] argsPlain (some unreadableFileTree)).fs :=
  ⟨by decide,
   main_twice_eq_once Env.posixOwner ["dirfixer"] argsPlain "r" unreadableFileTree rfl
    (Or.inr ⟨by decide, Or.inl (by decide)⟩)⟩

/-- C4: with fail-early, a non-nil traversal error and a failing handler each
make the callback return a non-nil error; the run on a directory handles
the entries in listing order up to the first entry `k` that has an error
(a failed `lstat` or directory read, or a failed handler): the `k` entries
before it have no error and are at their fixed modes, the callback is
invoked on entry `k` and on no later entry, entry `k` and the later ones
keep their bits, the error of entry `k` is reported in one line on the
error stream and the process exits with code 2; when no entry has an
error all are handled and the process exits with code 0. -/
theorem main_failEarly_stops (env : Env) (osArgs : List String) (args : Args)
    (fixPath : String) (node : Node)
    (hv : args.PrintVersion = false) (hp : args.FixPath = some fixPath) (hne : fixPath ≠ "")
    (hfe : args.FailEarly = true) (hstat : env.statErr fixPath = none)
    (hdir : node.isDir = true) :
    (∀ path info e, ∃ msg,
      (walkFn env (progSignature osArgs) true path info (some e)).ret = .err msg) ∧
    (∀ path nd e, (handleNode env path nd).2.err = some e → ∃ msg,
      (walkFn env (progSignature osArgs) true path (some nd) none).ret = .err msg) ∧
    ∃ k,
      (∀ f ∈ (walkErrs env (env.lstatErr fixPath none) (flat fixPath node)).take k,
        f = none) ∧
      (main env osArgs args (some node)).fs.map (flat fixPath) =
        some (((flat fixPath node).take k).map Entry.fixed ++ (flat fixPath node).drop k) ∧
      ((k = (flat fixPath node).length ∧
          (main env osArgs args (some node)).exit = .code 0 ∧
          delivered (main env osArgs args (some node)).events
            = (flat fixPath node).map Entry.path ∧
          stderrLines (main env osArgs args (some node)).events = []) ∨
       (k < (flat fixPath node).length ∧
          ∃ msg, (walkErrs env (env.lstatErr fixPath none) (flat fixPath node))[k]?
              = some (some msg) ∧
            (main env osArgs args (some node)).exit = .code 2 ∧
            delivered (main env osArgs args (some node)).events
              = ((flat fixPath node).take (k + 1)).map Entry.path ∧
            stderrLines (main env osArgs args (some node)).events =
              [progSignature osArgs ++ ": failed to fix path " ++ fixPath ++ ": " ++ msg
                ++ "\n"])) := by
  refine ⟨fun path info e => ⟨_, by rw [walkFn_failEarly_iterate]⟩, ?_, ?_⟩
  · intro path nd e he
    rcases (walkFn_failEarly_handle env (progSignature osArgs) path nd).2.2 with
      ⟨-, hok, -⟩ | ⟨⟨e2, -, hret⟩, -⟩
    · rw [hok] at he
      exact absurd he (by simp)
    · exact ⟨_, hret⟩
  · have hW : ∃ k, StoppedAt (flat fixPath node)
        (walkErrs env (env.lstatErr fixPath none) (flat fixPath node)) k
        (flat fixPath (Walk env (progSignature osArgs) true fixPath node).node)
        (Walk env (progSignature osArgs) true fixPath node).ret
        (delivered (Walk env (progSignature osArgs) true fixPath node).events) := by
      unfold Walk
      cases hl : env.lstatErr fixPath none with
      | some e =>
        obtain ⟨tl, htl⟩ := flat_head fixPath node
        refine ⟨0, ?_⟩
        simp only [walkFn_failEarly_iterate, delivered_osLstat, delivered_walkFnCall,
          delivered_nil, htl, walkErrs, entryErr]
        exact StoppedAt.zero _ _ _ _
      | none =>
        obtain ⟨k, hk⟩ := walk_failEarly env (progSignature osArgs) node fixPath
        exact ⟨k, by simpa using hk⟩
    have hQ : stderrLines (Walk env (progSignature osArgs) true fixPath node).events = [] := by
      unfold Walk
      cases env.lstatErr fixPath none with
      | some e => simp [walkFn_failEarly_quiet]
      | none => simp [walk_failEarly_quiet]
    obtain ⟨k, hout, hnone, hcase⟩ := hW
    refine ⟨k, hnone, ?_, ?_⟩
    · rw [main_dir env osArgs args fixPath node hv hp hne hstat hdir, hfe]
      split <;> simp [hout]
    · rw [main_dir env osArgs args fixPath node hv hp hne hstat hdir, hfe]
      rcases hcase with ⟨hk, hret, hc⟩ | ⟨hk, msg, hm, hret, hc⟩
      · exact Or.inl ⟨hk, by simp [hret], by simp [hret, hc], by simp [hret, hQ]⟩
      · exact Or.inr ⟨hk, msg, hm, by simp [hret], by simp [hret, hc], by simp [hret, hQ]⟩

/-- Witness of C4: three files, `chmod` fails on the second, fail-early
enabled: the third listed entry `r/b` is the first with an error. -/
theorem main_failEarly_stops_witness :
    (walkErrs (Env.chmodFailsOn "r/b") none (flat "r" threeFiles)) =
      [none, none, some "handle path r/b: setting file mode: operation not permitted", none] ∧
    ∃ k,
      (∀ f ∈ (walkErrs (Env.chmodFailsOn "r/b") ((Env.chmodFailsOn "r/b").lstatErr "r" none)
          (flat "r" threeFiles)).take k, f = none) ∧
      (main (Env.chmodFailsOn "r/b") ["dirfixer"] argsFailEarly (some threeFiles)).fs.map
          (flat "r") =
        some (((flat "r" threeFiles).take k).map Entry.fixed ++ (flat "r" threeFiles).drop k) ∧
      ((k = (flat "r" threeFiles).length ∧
          (main (Env.chmodFailsOn "r/b") ["dirfixer"] argsFailEarly (some threeFiles)).exit
            = .code 0 ∧
          delivered (main (Env.chmodFailsOn "r/b") ["dirfixer"] argsFailEarly
            (some threeFiles)).events = (flat "r" threeFiles).map Entry.path ∧
          stderrLines (main (Env.chmodFailsOn "r/b") ["dirfixer"] argsFailEarly
            (some threeFiles)).events = []) ∨
       (k < (flat "r" threeFiles).length ∧
          ∃ msg, (walkErrs (Env.chmodFailsOn "r/b")
              ((Env.chmodFailsOn "r/b").lstatErr "r" none) (flat "r" threeFiles))[k]?
              = some (some msg) ∧
            (main (Env.chmodFailsOn "r/b") ["dirfixer"] argsFailEarly (some threeFiles)).exit
              = .code 2 ∧
            delivered (main (Env.chmodFailsOn "r/b") ["dirfixer"] argsFailEarly
              (some threeFiles)).events = ((flat "r" threeFiles).take (k + 1)).map Entry.path ∧
            stderrLines (main (Env.chmodFailsOn "r/b") ["dirfixer"] argsFailEarly
              (some threeFiles)).events =
                [progSignature ["dirfixer"] ++ ": failed to fix path " ++ "r" ++ ": " ++ msg
                  ++ "\n"])) :=
  ⟨by decide,
   (main_failEarly_stops (Env.chmodFailsOn "r/b") ["dirfixer"] argsFailEarly "r" threeFiles
    rfl rfl (by decide) rfl rfl rfl).2.2⟩

/-- The scenario of three files with a failing `chmod` on the second, with
fail-early: the first file is fixed, the second and third keep their bits,
the callback is never invoked on the third, and the exit code is 2. -/
theorem main_failEarly_scenario :
    (main (Env.chmodFailsOn "r/b") ["dirfixer"] argsFailEarly (some threeFiles)).exit
      = .code 2 ∧
    (main (Env.chmodFailsOn "r/b") ["dirfixer"] argsFailEarly (some threeFiles)).fs.map
        (flat "r") =
      some [⟨"r", true, 0o750, []⟩, ⟨"r/a", false, 0o640, []⟩, ⟨"r/b", false, 0o600, []⟩,
        ⟨"r/c", false, 0o600, []⟩] ∧
    delivered (main (Env.chmodFailsOn "r/b") ["dirfixer"] argsFailEarly
      (some threeFiles)).events = ["r", "r/a", "r/b"] ∧
    stderrLines (main (Env.chmodFailsOn "r/b") ["dirfixer"] argsFailEarly
      (some threeFiles)).events =
      ["dirfixer: failed to fix path r: handle path r/b: setting file mode: operation not permitted\n"] := by
  decide

/-- C5 as stated fails: without fail-early and for an unprivileged owner, the
`chmod` on the directory `r/d` (0600, listable but not searchable) fails;
the failure is reported and the callback returns `nil`, but then the `lstat`
of `r/d/f` fails, the callback is invoked with a nil `info` and faults, and
the later entries `r/d/f` and `r/g` are never handled, whereas they are
handled (0640) when that `chmod` does not fail. -/
theorem Walk_stops_after_failure :
    (Walk (Env.posixOwnerChmodFailsOn "r/d") "dirfixer" false "r" unsearchableTree).ret
      = .fault ∧
    flat "r" (Walk (Env.posixOwnerChmodFailsOn "r/d") "dirfixer" false "r"
        unsearchableTree).node =
      [⟨"r", true, 0o750, []⟩, ⟨"r/d", true, 0o600, []⟩, ⟨"r/d/f", false, 0o644, []⟩,
        ⟨"r/g", false, 0o644, []⟩] ∧
    stderrLines (Walk (Env.posixOwnerChmodFailsOn "r/d") "dirfixer" false "r"
        unsearchableTree).events =
      ["dirfixer: failed to handle path r/d: changing directory permissions: "
          ++ "operation not permitted\n",
        "dirfixer: failed to iterate over path r/d/f: permission denied\n"] ∧
    delivered (Walk (Env.posixOwnerChmodFailsOn "r/d") "dirfixer" false "r"
        unsearchableTree).events = ["r", "r/d", "r/d/f"] ∧
    flat "r" (Walk Env.posixOwner "dirfixer" false "r" unsearchableTree).node =
      [⟨"r", true, 0o750, []⟩, ⟨"r/d", true, 0o750, []⟩, ⟨"r/d/f", false, 0o640, []⟩,
        ⟨"r/g", false, 0o640, []⟩] := by
  decide

/-- C5 amended: without fail-early, every callback invocation with a non-nil
`info` runs the handler matching the type of the entry and returns `nil`,
and a failure of `handleDir` or `handleFile` is written to the error stream
in a line naming the path; and when the walk returns `nil` (no `lstat`
failed), the callback has been invoked on every entry of the tree that is
not inside a directory whose listing failed, each of them is left as the
handler matching its type leaves it on its own (whatever failed on other
entries), and the error stream holds exactly the lines of these entries. -/
theorem Walk_continues_after_failure (env : Env) (prog root : String) (node : Node)
    (hret : (Walk env prog false root node).ret = .nil) :
    (∀ path nd err,
      (walkFn env prog false path (some nd) err).ret = .nil ∧
      (walkFn env prog false path (some nd) err).node = some (handleNode env path nd).1 ∧
      ∀ e, (handleNode env path nd).2.err = some e →
        (prog ++ ": failed to handle path " ++ path ++ ": " ++ e ++ "\n") ∈
          stderrLines (walkFn env prog false path (some nd) err).events) ∧
    (Walk env prog false root node).node = settle env root node ∧
    delivered (Walk env prog false root node).events = (visited env root node).map Entry.path ∧
    stderrLines (Walk env prog false root node).events
      = (visited env root node).flatMap (entryLines env prog) := by
  refine ⟨?_, ?_⟩
  · intro path nd err
    obtain ⟨h1, h2, -, h4⟩ := walkFn_continue_handle env prog path nd err
    exact ⟨h1, h2, fun e he => by rw [h4, he]; simp⟩
  · unfold Walk at hret ⊢
    cases hl : env.lstatErr root none with
    | some x =>
      simp only [hl] at hret
      exact absurd hret (walkFn_nil_info env prog false root _)
    | none =>
      simp only [hl] at hret ⊢
      obtain ⟨h1, h2, h3⟩ := walk_continue env prog node root hret
      simp only [delivered_osLstat, stderrLines_osLstat]
      exact ⟨h1, h2, h3⟩

/-- Witness of C5 amended: three files, `chmod` fails on the second, no
fail-early: the third file is still fixed. -/
theorem Walk_continues_after_failure_witness :
    flat "r" (Walk (Env.chmodFailsOn "r/b") "dirfixer" false "r" threeFiles).node =
      [⟨"r", true, 0o750, []⟩, ⟨"r/a", false, 0o640, []⟩, ⟨"r/b", false, 0o600, []⟩,
        ⟨"r/c", false, 0o640, []⟩] ∧
    stderrLines (Walk (Env.chmodFailsOn "r/b") "dirfixer" false "r" threeFiles).events =
      ["dirfixer: failed to handle path r/b: setting file mode: operation not permitted\n"] :=
  have h := Walk_continues_after_failure (Env.chmodFailsOn "r/b") "dirfixer" "r" threeFiles
    (by decide)
  ⟨(congrArg (flat "r") h.2.1).trans (by decide), h.2.2.2.trans (by decide)⟩

/-- C6: when `stat` fails with a not-found error, `isValidPath` returns
`(false, false, nil)` and the run exits with code 1 after the `stat` call
and one line on the error stream, with no other system call and the file
system untouched; when `stat` fails otherwise, `isValidPath` returns the
error and the run exits with code 2. -/
theorem main_not_found (env : Env) (osArgs : List String) (args : Args) (fixPath : String)
    (fs : Option Node)
    (hv : args.PrintVersion = false) (hp : args.FixPath = some fixPath) (hne : fixPath ≠ "") :
    (osStat env fixPath fs = .error .notExist →
      isValidPath env fixPath fs = ⟨false, false, none⟩ ∧
      main env osArgs args fs = ⟨fs, .code 1, [.osStat fixPath,
        .stderr (progSignature osArgs ++ ": path does not exist\n")]⟩) ∧
    (∀ e, osStat env fixPath fs = .error (.other e) →
      isValidPath env fixPath fs = ⟨false, false, some e⟩ ∧
      main env osArgs args fs = ⟨fs, .code 2, [.osStat fixPath,
        .stderr (progSignature osArgs ++ ": failed to validate path: " ++ e ++ "\n")]⟩) := by
  refine ⟨fun h => ?_, fun e h => ?_⟩
  · have hvp : isValidPath env fixPath fs = ⟨false, false, none⟩ := by
      simp [isValidPath, h]
    refine ⟨hvp, ?_⟩
    unfold main
    simp [hv, hp, hne, hvp]
  · have hvp : isValidPath env fixPath fs = ⟨false, false, some e⟩ := by
      simp [isValidPath, h]
    refine ⟨hvp, ?_⟩
    unfold main
    simp [hv, hp, hne, hvp]

/-- Witness of C6: the path `r` does not exist. -/
theorem main_not_found_witness :
    main Env.ok ["dirfixer"] argsPlain none =
      ⟨none, .code 1, [.osStat "r", .stderr "dirfixer: path does not exist\n"]⟩ :=
  ((main_not_found Env.ok ["dirfixer"] argsPlain "r" none rfl rfl (by decide)).1 rfl).2

/-- C9 fails on the code: without fail-early, a callback invocation with a
traversal error and a nil `info` writes the error line and then faults on
`info.IsDir()`, whereas with fail-early the same invocation returns an
error before `info` is used; so the run without fail-early on a directory
owned by someone else that can be listed but not searched ends in a
run-time fault. -/
theorem walkFn_nil_info_faults :
    (∀ (env : Env) (prog path e : String),
      walkFn env prog false path none (some e) =
        ⟨.fault, none, [.walkFnCall path,
          .stderr (prog ++ ": failed to iterate over path " ++ path ++ ": " ++ e ++ "\n")]⟩) ∧
    (∀ (env : Env) (prog path e : String),
      walkFn env prog true path none (some e) =
        ⟨.err ("iterate over path " ++ path ++ ": " ++ e), none, [.walkFnCall path]⟩) ∧
    (main Env.posixOther ["dirfixer"] argsPlain (some foreignTree)).exit = .fault ∧
    (main Env.posixOther ["dirfixer"] argsPlain (some foreignTree)).events =
      [.osStat "r", .osLstat "r", .readDirNames "r", .walkFnCall "r", .osChmod "r" 0o750,
        .stderr ("dirfixer: failed to handle path r: changing directory permissions: "
          ++ "operation not permitted\n"),
        .osLstat "r/f", .walkFnCall "r/f",
        .stderr "dirfixer: failed to iterate over path r/f: permission denied\n"] := by
  refine ⟨fun env prog path e => rfl, fun env prog path e => rfl, by decide, by decide⟩

/-- C10: for a target that exists as a directory, without fail-early the
callback and the walk never return a non-nil error, and the run either
exits with code 0 or ends in a run-time fault (abnormal termination); it
exits with code 0 whenever `lstat` does not fail; exit code 2 is reached
only with fail-early. -/
theorem main_continue_exit (env : Env) (osArgs : List String) (args : Args)
    (fixPath : String) (node : Node)
    (hv : args.PrintVersion = false) (hp : args.FixPath = some fixPath) (hne : fixPath ≠ "")
    (hstat : env.statErr fixPath = none) (hdir : node.isDir = true) :
    (args.FailEarly = false →
      (∀ path info err msg,
        (walkFn env (progSignature osArgs) false path info err).ret ≠ .err msg) ∧
      (∀ msg, (Walk env (progSignature osArgs) false fixPath node).ret ≠ .err msg) ∧
      ((main env osArgs args (some node)).exit = .code 0 ∨
        (main env osArgs args (some node)).exit = .fault) ∧
      ((∀ p d, env.lstatErr p d = none) →
        (main env osArgs args (some node)).exit = .code 0)) ∧
    ((main env osArgs args (some node)).exit = .code 2 → args.FailEarly = true) := by
  have hW : ∀ msg, (Walk env (progSignature osArgs) false fixPath node).ret ≠ .err msg := by
    intro msg
    unfold Walk
    split
    · exact walkFn_continue_ne_err env _ _ _ _ msg
    · exact walk_continue_ne_err env _ node fixPath msg
  have hmain := main_dir env osArgs args fixPath node hv hp hne hstat hdir
  have key : args.FailEarly = false → (main env osArgs args (some node)).exit = .code 0 ∨
      (main env osArgs args (some node)).exit = .fault := by
    intro hfe
    rw [hmain, hfe]
    cases hret : (Walk env (progSignature osArgs) false fixPath node).ret with
    | nil => simp
    | err msg => exact absurd hret (hW msg)
    | fault => simp
  have hnil : args.FailEarly = false → (∀ p d, env.lstatErr p d = none) →
      (main env osArgs args (some node)).exit = .code 0 := by
    intro hfe hl
    have hret : (Walk env (progSignature osArgs) false fixPath node).ret = .nil := by
      unfold Walk
      simp only [hl]
      exact walk_continue_nil env _ hl node fixPath
    rw [hmain, hfe, hret]
  refine ⟨fun hfe => ⟨fun path info err msg => walkFn_continue_ne_err env _ path info err msg,
    hW, key hfe, hnil hfe⟩, ?_⟩
  intro h2
  cases hfe : args.FailEarly with
  | true => rfl
  | false =>
    rcases key hfe with h | h <;> rw [h] at h2 <;> simp at h2

/-- Witness of C10: three files, `chmod` fails on the second, no
fail-early: the run exits with code 0. -/
theorem main_continue_exit_witness :
    (main (Env.chmodFailsOn "r/b") ["dirfixer"] argsPlain (some threeFiles)).exit = .code 0 :=
  ((main_continue_exit (Env.chmodFailsOn "r/b") ["dirfixer"] argsPlain "r" threeFiles
    rfl rfl (by decide) rfl rfl).1 rfl).2.2.2 (fun _ _ => rfl)

end Dirfixer
